import Mathlib

/-!
Shallow embedding of the core of the `msgene` genealogy pipeline
(`src/parsing.py`, `src/graph.py`, `src/validation.py`) and proofs about it.

Conventions of the embedding:
* Python strings are Lean `String`s, manipulated through their `data : List Char`.
* The regex character classes `\d`, `\s`, `[A-Za-z]` and `str`/`int` digit handling
  are modelled over ASCII (the repository's GEDCOM date strings are ASCII).
* Fallible Python code (raising `ValueError`) is modelled with `Except`/`Option`.
* The `while` loop of `get_lineage_subgraph` is modelled with explicit fuel;
  running out of fuel is `none`, mirroring non-termination of the Python loop.
-/

namespace Msgene

/-! ## Character classes and small string utilities -/

/-- ASCII whitespace (space, tab, newline, carriage return, vertical tab,
form feed), modelling Python's `\s` / `str.strip()` class. -/
def isWs (c : Char) : Bool :=
  c.toNat = 32 || c.toNat = 9 || c.toNat = 10 || c.toNat = 13 ||
    c.toNat = 11 || c.toNat = 12

/-- The parenthesis class of `s.strip("()")` (code points 40 and 41). -/
def isParen (c : Char) : Bool :=
  c.toNat = 40 || c.toNat = 41

/-- The question-mark class of `s.rstrip("?")` (code point 63). -/
def isQmark (c : Char) : Bool :=
  c.toNat = 63

/-- ASCII digit, modelling the regex class `\d` / `[^0-9]`. -/
def isDig (c : Char) : Bool :=
  48 ≤ c.toNat && c.toNat ≤ 57

/-- ASCII letter, modelling the regex class `[A-Za-z]`. -/
def isAlphaAscii (c : Char) : Bool :=
  (65 ≤ c.toNat && c.toNat ≤ 90) || (97 ≤ c.toNat && c.toNat ≤ 122)

/-- Numeric value of a digit character. -/
def dval (c : Char) : Nat := c.toNat - 48

/-- Value of a big-endian digit-character list, modelling Python `int` on an
all-digit string (as produced by the regex groups of `parsing.py`). -/
def numOf (l : List Char) : Nat :=
  l.foldl (fun a c => a * 10 + dval c) 0

/-- Strip characters satisfying `p` from both ends, modelling `str.strip(...)`. -/
def stripEnds (p : Char → Bool) (l : List Char) : List Char :=
  ((l.dropWhile p).reverse.dropWhile p).reverse

/-- Strip characters satisfying `p` from the right end, modelling `str.rstrip(...)`. -/
def rstripEnd (p : Char → Bool) (l : List Char) : List Char :=
  (l.reverse.dropWhile p).reverse

/-- Consume one occurrence of `c` at the head if present (regex `c?`). -/
def optChar (c : Char) (l : List Char) : List Char :=
  match l with
  | [] => []
  | x :: r => if x = c then r else x :: r

/-! ## `extract_numeric_id` (src/parsing.py, lines 40-46) -/

/-- Embedding of `extract_numeric_id`: `re.sub(r"[^0-9]", "", xref_id)` keeps
exactly the digit characters; an empty remainder raises `ValueError`. -/
def extract_numeric_id (xref_id : String) : Except String Nat :=
  let digits := xref_id.data.filter isDig
  if digits.isEmpty then
    Except.error ("No numeric ID found in: " ++ xref_id)
  else
    Except.ok (numOf digits)

/-! ## `parse_date_string` (src/parsing.py, lines 49-192)

Each regex `re.match` of the source is translated into an explicit scanner over
`List Char`.  The regexes only combine maximal runs of disjoint character
classes with optional punctuation, so greedy matching with the recorded
backtracking (needed only for pattern 8's `(\d{1,2}),?\s*(\d{4})$`) is exact. -/

/-- The `MONTH_MAP` dict of src/parsing.py, lines 12-37, as an association list. -/
def MONTH_LIST : List (String × Nat) :=
  [("JAN", 1), ("JANUARY", 1), ("FEB", 2), ("FEBRUARY", 2), ("MAR", 3),
   ("MARCH", 3), ("APR", 4), ("APRIL", 4), ("MAY", 5), ("JUN", 6), ("JUNE", 6),
   ("JUL", 7), ("JULY", 7), ("AUG", 8), ("AUGUST", 8), ("SEP", 9), ("SEPT", 9),
   ("SEPTEMBER", 9), ("OCT", 10), ("OCTOBER", 10), ("NOV", 11),
   ("NOVEMBER", 11), ("DEC", 12), ("DECEMBER", 12)]

/-- `MONTH_MAP.get(month_str)`. -/
def month_map (s : String) : Option Nat :=
  (MONTH_LIST.find? (fun p => p.1 = s)).map (fun p => p.2)

/-- `month_str.upper()` on an `[A-Za-z]+` capture (ASCII). -/
def listUpper (l : List Char) : String :=
  String.mk (l.map Char.toUpper)

/-- Expect the remainder to be exactly a `(\d{4})$` group; return its value. -/
def exact4Digits (l : List Char) : Option Nat :=
  match l with
  | [a, b, c, d] =>
    if isDig a && isDig b && isDig c && isDig d then some (numOf [a, b, c, d])
    else none
  | _ => none

/-- The qualifier alternation of lines 90-95, in source order.  The `Bool`
records whether the alternative carries an optional `\.?`. -/
def QUALS : List (List Char × Bool) :=
  [(['A', 'B', 'T'], true), (['A', 'B', 'O', 'U', 'T'], false),
   (['B', 'E', 'F'], true), (['B', 'E', 'F', 'O', 'R', 'E'], false),
   (['A', 'F', 'T'], true), (['A', 'F', 'T', 'E', 'R'], false),
   (['E', 'S', 'T'], true), (['C', 'A', 'L'], true),
   (['F', 'R', 'O', 'M'], false), (['T', 'O'], false),
   (['B', 'E', 'T'], true), (['A', 'N', 'D'], false),
   (['C', 'I', 'R', 'C', 'A'], false), (['C', 'A'], true),
   (['A', 'R', 'O', 'U', 'N', 'D'], false)]

/-- Case-insensitive literal match at the head (ASCII, as in `re.IGNORECASE`
over the all-uppercase alternatives); returns the remainder on success. -/
def headMatchCI : List Char → List Char → Option (List Char)
  | [], l => some l
  | _ :: _, [] => none
  | b :: bs, c :: l => if c.toUpper = b then headMatchCI bs l else none

/-- One alternative of the qualifier regex followed by the shared `:?\s*`. -/
def stripQual (alt : List Char × Bool) (l : List Char) : Option (List Char) :=
  (headMatchCI alt.1 l).map (fun r =>
    let r1 := if alt.2 then optChar '.' r else r
    let r2 := optChar ':' r1
    r2.dropWhile isWs)

/-- `re.sub(qualifier_regex, "", s)`: the pattern is anchored at `^`, so at most
one substitution happens, using the first alternative that matches. -/
def applyQualifier (l : List Char) : List Char :=
  match QUALS.findSome? (fun alt => stripQual alt l) with
  | some r => r
  | none => l

/-- The cleanup at lines 84-96: strip whitespace, parentheses, trailing `?`,
a leading qualifier, then whitespace again. -/
def cleanup (l : List Char) : List Char :=
  stripEnds isWs (applyQualifier (rstripEnd isQmark (stripEnds isParen (stripEnds isWs l))))

/-- The `if month == 0: month = 1` defaulting of pattern 0 (lines 111-115). -/
def zeroTo1 (n : Nat) : Nat := if n = 0 then 1 else n

/-- Pattern 0 (lines 105-117): `^(\d{4})-(\d{2})-(\d{2})$`, with `00` month/day
defaulting to `01` and a 1-12 / 1-31 range check. -/
def pattern0 (s : List Char) : Option (Nat × Nat × Nat) :=
  match s with
  | [a, b, c, d, '-', e, f, '-', g, h] =>
    if isDig a && isDig b && isDig c && isDig d && isDig e && isDig f &&
        isDig g && isDig h then
      let year := numOf [a, b, c, d]
      let month := zeroTo1 (numOf [e, f])
      let day := zeroTo1 (numOf [g, h])
      if 1 ≤ month && month ≤ 12 && 1 ≤ day && day ≤ 31 then
        some (year, month, day)
      else none
    else none
  | _ => none

/-- Pattern 1 (lines 119-127): `^(\d{1,2})\s+([A-Za-z]+)\.?\s*(\d{4})$`;
the month name must resolve through `MONTH_MAP` for the return to fire. -/
def pattern1 (s : List Char) : Option (Nat × Nat × Nat) :=
  let ds := s.takeWhile isDig
  let r1 := s.dropWhile isDig
  if ds.length = 0 || 2 < ds.length then none else
  let ws := r1.takeWhile isWs
  let r2 := r1.dropWhile isWs
  if ws.isEmpty then none else
  let ls := r2.takeWhile isAlphaAscii
  let r3 := r2.dropWhile isAlphaAscii
  if ls.isEmpty then none else
  let r4 := optChar '.' r3
  let r5 := r4.dropWhile isWs
  match exact4Digits r5, month_map (listUpper ls) with
  | some year, some month => some (year, month, numOf ds)
  | _, _ => none

/-- Pattern 2 (lines 129-136): `^([A-Za-z]+)\.?,?\s*(\d{4})$`, day defaults to 1. -/
def pattern2 (s : List Char) : Option (Nat × Nat × Nat) :=
  let ls := s.takeWhile isAlphaAscii
  let r1 := s.dropWhile isAlphaAscii
  if ls.isEmpty then none else
  let r2 := optChar '.' r1
  let r3 := optChar ',' r2
  let r4 := r3.dropWhile isWs
  match exact4Digits r4, month_map (listUpper ls) with
  | some year, some month => some (year, month, 1)
  | _, _ => none

/-- Pattern 3 (lines 138-142): `^(\d{4})$`, month and day default to 1. -/
def pattern3 (s : List Char) : Option (Nat × Nat × Nat) :=
  match exact4Digits s with
  | some year => some (year, 1, 1)
  | none => none

/-- The dash-or-slash separator class of pattern 4. -/
def isSep (c : Char) : Bool := c = '-' || c = '/'

/-- Pattern 4 (lines 144-151): MM-DD-YYYY or MM/DD/YYYY, that is
`^(\d{1,2})[sep](\d{1,2})[sep](\d{4})$` with `sep` the dash-or-slash class,
with a 1-12 / 1-31 range check. -/
def pattern4 (s : List Char) : Option (Nat × Nat × Nat) :=
  let d1 := s.takeWhile isDig
  let r1 := s.dropWhile isDig
  if d1.length = 0 || 2 < d1.length then none else
  match r1 with
  | [] => none
  | sep1 :: r2 =>
    if !isSep sep1 then none else
    let d2 := r2.takeWhile isDig
    let r3 := r2.dropWhile isDig
    if d2.length = 0 || 2 < d2.length then none else
    match r3 with
    | [] => none
    | sep2 :: r4 =>
      if !isSep sep2 then none else
      match exact4Digits r4 with
      | none => none
      | some year =>
        let month := numOf d1
        let day := numOf d2
        if 1 ≤ month && month ≤ 12 && 1 ≤ day && day ≤ 31 then
          some (year, month, day)
        else none

/-- Pattern 5 (lines 153-160): `^(\d{1,2})\s+(\d{1,2})\s+(\d{4})$` with range check. -/
def pattern5 (s : List Char) : Option (Nat × Nat × Nat) :=
  let d1 := s.takeWhile isDig
  let r1 := s.dropWhile isDig
  if d1.length = 0 || 2 < d1.length then none else
  let ws1 := r1.takeWhile isWs
  let r2 := r1.dropWhile isWs
  if ws1.isEmpty then none else
  let d2 := r2.takeWhile isDig
  let r3 := r2.dropWhile isDig
  if d2.length = 0 || 2 < d2.length then none else
  let ws2 := r3.takeWhile isWs
  let r4 := r3.dropWhile isWs
  if ws2.isEmpty then none else
  match exact4Digits r4 with
  | some year =>
    let month := numOf d1
    let day := numOf d2
    if 1 ≤ month && month ≤ 12 && 1 ≤ day && day ≤ 31 then
      some (year, month, day)
    else none
  | none => none

/-- Pattern 6 (lines 162-170): `^(\d{1,2})\s+([A-Za-z]+)(\d{4})$`. -/
def pattern6 (s : List Char) : Option (Nat × Nat × Nat) :=
  let ds := s.takeWhile isDig
  let r1 := s.dropWhile isDig
  if ds.length = 0 || 2 < ds.length then none else
  let ws := r1.takeWhile isWs
  let r2 := r1.dropWhile isWs
  if ws.isEmpty then none else
  let ls := r2.takeWhile isAlphaAscii
  let r3 := r2.dropWhile isAlphaAscii
  if ls.isEmpty then none else
  match exact4Digits r3, month_map (listUpper ls) with
  | some year, some month => some (year, month, numOf ds)
  | _, _ => none

/-- Pattern 7 (lines 172-180): `^(\d{1,2})\s+([A-Za-z]+)\.?\s+(\d{4})$`. -/
def pattern7 (s : List Char) : Option (Nat × Nat × Nat) :=
  let ds := s.takeWhile isDig
  let r1 := s.dropWhile isDig
  if ds.length = 0 || 2 < ds.length then none else
  let ws := r1.takeWhile isWs
  let r2 := r1.dropWhile isWs
  if ws.isEmpty then none else
  let ls := r2.takeWhile isAlphaAscii
  let r3 := r2.dropWhile isAlphaAscii
  if ls.isEmpty then none else
  let r4 := optChar '.' r3
  let ws2 := r4.takeWhile isWs
  let r5 := r4.dropWhile isWs
  if ws2.isEmpty then none else
  match exact4Digits r5, month_map (listUpper ls) with
  | some year, some month => some (year, month, numOf ds)
  | _, _ => none

/-- The `(\d{1,2}),?\s*(\d{4})$` tail of pattern 8, attempting a 2-digit day
first and backtracking to 1 digit, exactly as the greedy regex does. -/
def tryDay (n : Nat) (l : List Char) : Option (Nat × Nat) :=
  let ds := l.take n
  if ds.length = n && ds.all isDig then
    let r := l.drop n
    let r2 := optChar ',' r
    let r3 := r2.dropWhile isWs
    (exact4Digits r3).map (fun y => (numOf ds, y))
  else none

/-- Day-then-year tail of pattern 8 (see `tryDay`). -/
def tailDayYear (l : List Char) : Option (Nat × Nat) :=
  match tryDay 2 l with
  | some r => some r
  | none => tryDay 1 l

/-- Pattern 8 (lines 182-190): `^([A-Za-z]+)\.?\s*(\d{1,2}),?\s*(\d{4})$`. -/
def pattern8 (s : List Char) : Option (Nat × Nat × Nat) :=
  let ls := s.takeWhile isAlphaAscii
  let r1 := s.dropWhile isAlphaAscii
  if ls.isEmpty then none else
  let r2 := optChar '.' r1
  let r3 := r2.dropWhile isWs
  match tailDayYear r3, month_map (listUpper ls) with
  | some dy, some month => some (dy.2, month, dy.1)
  | _, _ => none

/-- The ordered first-match-wins cascade of patterns 0-8. -/
def parseCore (s : List Char) : Option (Nat × Nat × Nat) :=
  (pattern0 s).orElse fun _ =>
  (pattern1 s).orElse fun _ =>
  (pattern2 s).orElse fun _ =>
  (pattern3 s).orElse fun _ =>
  (pattern4 s).orElse fun _ =>
  (pattern5 s).orElse fun _ =>
  (pattern6 s).orElse fun _ =>
  (pattern7 s).orElse fun _ =>
  pattern8 s

/-- The f-string `f"{year:04d}-{month:02d}-{day:02d}"`.  Every call site
guarantees `year ≤ 9999`, `month ≤ 12` and `day ≤ 99`, on which domain the
Python zero-padded formatting is exactly these ten characters. -/
def formatDate (y m d : Nat) : String :=
  String.mk [Nat.digitChar (y / 1000 % 10), Nat.digitChar (y / 100 % 10),
    Nat.digitChar (y / 10 % 10), Nat.digitChar (y % 10), '-',
    Nat.digitChar (m / 10 % 10), Nat.digitChar (m % 10), '-',
    Nat.digitChar (d / 10 % 10), Nat.digitChar (d % 10)]

/-- Embedding of `parse_date_string` (lines 49-192).  `none` on the Python
side is both the `None` argument and the `return None` outcomes. -/
def parse_date_string (date_str : Option String) : Option String :=
  match date_str with
  | none => none
  | some str =>
    if str.data.isEmpty then none else
    if (cleanup str.data).isEmpty then none else
    (parseCore (cleanup str.data)).map (fun t => formatDate t.1 t.2.1 t.2.2)

/-- Month field (characters 5-6) of a canonical date string, as a number. -/
def monthValOf (d : String) : Nat := numOf ((d.data.drop 5).take 2)

/-- Day field (characters 8-9) of a canonical date string, as a number. -/
def dayValOf (d : String) : Nat := numOf ((d.data.drop 8).take 2)

example : parse_date_string (some "25 NOV 1954") = some "1954-11-25" := by decide
example : parse_date_string (some "ABT 1905") = some "1905-01-01" := by decide
example : parse_date_string (some "(1839-08-29)") = some "1839-08-29" := by decide
example : parse_date_string (some "") = none := by decide
example : parse_date_string (some "not a date") = none := by decide
example : parse_date_string (some "(About:1746-00-00)") = some "1746-01-01" := by decide
example : parse_date_string (some "(SEPT. 17,1910)") = some "1910-09-17" := by decide
example : parse_date_string (some "(Oct.12,1929)") = some "1929-10-12" := by decide
example : parse_date_string (some "(05/15/1923)") = some "1923-05-15" := by decide
example : parse_date_string (some "(04 05 1911)") = some "1911-04-05" := by decide
example : parse_date_string (some "(02 May1838)") = some "1838-05-02" := by decide
example : parse_date_string (some "(May, 1837)") = some "1837-05-01" := by decide
example : parse_date_string (some "(1789?)") = some "1789-01-01" := by decide
example : parse_date_string (some "(around 1855)") = some "1855-01-01" := by decide
example : parse_date_string (some "(Abt.  1798)") = some "1798-01-01" := by decide
example : parse_date_string (some "(11 Aug. 1968)") = some "1968-08-11" := by decide
example : parse_date_string (some "0 NOV 1954") = some "1954-11-00" := by decide
example : parse_date_string (some "1954-11-00") = some "1954-11-01" := by decide
example : parse_date_string (some "99 NOV 1954") = some "1954-11-99" := by decide
example : extract_numeric_id "@I_347421849@" = Except.ok 347421849 := rfl

/-! ## Digit and formatting lemmas -/

lemma isDig_bounds {c : Char} (h : isDig c = true) : 48 ≤ c.toNat ∧ c.toNat ≤ 57 := by
  simpa [isDig] using h

lemma dval_le {c : Char} (h : isDig c = true) : dval c ≤ 9 := by
  have := isDig_bounds h
  unfold dval
  omega

lemma isDig_digitChar_mod (n : Nat) : isDig (Nat.digitChar (n % 10)) = true := by
  have h : n % 10 < 10 := Nat.mod_lt _ (by norm_num)
  set k := n % 10 with hk
  interval_cases k <;> decide

lemma dval_digitChar_mod (n : Nat) : dval (Nat.digitChar (n % 10)) = n % 10 := by
  have h : n % 10 < 10 := Nat.mod_lt _ (by norm_num)
  set k := n % 10 with hk
  interval_cases k <;> decide

lemma isWs_of_isDig {c : Char} (h : isDig c = true) : isWs c = false := by
  have := isDig_bounds h
  simp only [isWs, Bool.or_eq_false_iff, decide_eq_false_iff_not]
  omega

lemma isParen_of_isDig {c : Char} (h : isDig c = true) : isParen c = false := by
  have := isDig_bounds h
  simp only [isParen, Bool.or_eq_false_iff, decide_eq_false_iff_not]
  omega

lemma isQmark_of_isDig {c : Char} (h : isDig c = true) : isQmark c = false := by
  have := isDig_bounds h
  simp only [isQmark, decide_eq_false_iff_not]
  omega

lemma toUpper_of_isDig {c : Char} (h : isDig c = true) : c.toUpper = c := by
  have hb := isDig_bounds h
  unfold Char.toUpper
  rw [if_neg]
  omega

lemma ne_of_isDig_letter {c b : Char} (hc : isDig c = true) (hb : 65 ≤ b.toNat) :
    c ≠ b := by
  intro h
  have := isDig_bounds hc
  subst h
  omega

lemma headMatchCI_digit_none {b : Char} {bs l : List Char} {c : Char}
    (hc : isDig c = true) (hb : 65 ≤ b.toNat) :
    headMatchCI (b :: bs) (c :: l) = none := by
  have h1 : c.toUpper = c := toUpper_of_isDig hc
  have h2 : c ≠ b := ne_of_isDig_letter hc hb
  simp [headMatchCI, h1, h2]

lemma stripQual_cons_digit {c : Char} (hc : isDig c = true) (l : List Char)
    (alt : List Char × Bool) (halt : alt ∈ QUALS) :
    stripQual alt (c :: l) = none := by
  obtain ⟨b, bs, hbs, hb⟩ : ∃ b bs, alt.1 = b :: bs ∧ 65 ≤ b.toNat := by
    fin_cases halt <;> exact ⟨_, _, rfl, by decide⟩
  simp only [stripQual, hbs, headMatchCI_digit_none hc hb, Option.map_none']

lemma applyQualifier_cons_digit {c : Char} (hc : isDig c = true) (l : List Char) :
    applyQualifier (c :: l) = c :: l := by
  have hnone : QUALS.findSome? (fun alt => stripQual alt (c :: l)) = none := by
    rw [List.findSome?_eq_none_iff]
    intro alt halt
    exact stripQual_cons_digit hc l alt halt
  simp [applyQualifier, hnone]

lemma dropWhile_noop {p : Char → Bool} {l : List Char}
    (h : ∀ c ∈ l, p c = false) : l.dropWhile p = l := by
  cases l with
  | nil => rfl
  | cons x xs =>
    rw [List.dropWhile_cons, if_neg]
    simp [h x (List.mem_cons_self x xs)]

lemma stripEnds_noop {p : Char → Bool} {l : List Char}
    (h : ∀ c ∈ l, p c = false) : stripEnds p l = l := by
  unfold stripEnds
  rw [dropWhile_noop h, dropWhile_noop (fun c hc => h c (List.mem_reverse.mp hc)),
    List.reverse_reverse]

lemma rstripEnd_noop {p : Char → Bool} {l : List Char}
    (h : ∀ c ∈ l, p c = false) : rstripEnd p l = l := by
  unfold rstripEnd
  rw [dropWhile_noop (fun c hc => h c (List.mem_reverse.mp hc)),
    List.reverse_reverse]

lemma cleanup_noop {c : Char} {l : List Char}
    (hdig : isDig c = true)
    (hws : ∀ x ∈ c :: l, isWs x = false)
    (hpar : ∀ x ∈ c :: l, isParen x = false)
    (hq : ∀ x ∈ c :: l, isQmark x = false) :
    cleanup (c :: l) = c :: l := by
  unfold cleanup
  rw [stripEnds_noop hws, stripEnds_noop hpar, rstripEnd_noop hq,
    applyQualifier_cons_digit hdig, stripEnds_noop hws]

lemma mem_formatDate_cases {y m d : Nat} {x : Char}
    (hx : x ∈ (formatDate y m d).data) : isDig x = true ∨ x = '-' := by
  simp only [formatDate, List.mem_cons, List.not_mem_nil, or_false] at hx
  rcases hx with rfl | rfl | rfl | rfl | rfl | rfl | rfl | rfl | rfl | rfl
  · exact Or.inl (isDig_digitChar_mod _)
  · exact Or.inl (isDig_digitChar_mod _)
  · exact Or.inl (isDig_digitChar_mod _)
  · exact Or.inl (isDig_digitChar_mod _)
  · exact Or.inr rfl
  · exact Or.inl (isDig_digitChar_mod _)
  · exact Or.inl (isDig_digitChar_mod _)
  · exact Or.inr rfl
  · exact Or.inl (isDig_digitChar_mod _)
  · exact Or.inl (isDig_digitChar_mod _)

lemma numOf_two_digitChar (m : Nat) (hm : m ≤ 99) :
    numOf [Nat.digitChar (m / 10 % 10), Nat.digitChar (m % 10)] = m := by
  simp only [numOf, List.foldl, dval_digitChar_mod]
  omega

lemma numOf_four_digitChar (y : Nat) (hy : y ≤ 9999) :
    numOf [Nat.digitChar (y / 1000 % 10), Nat.digitChar (y / 100 % 10),
      Nat.digitChar (y / 10 % 10), Nat.digitChar (y % 10)] = y := by
  simp only [numOf, List.foldl, dval_digitChar_mod]
  omega

/-- Re-matching pattern 0 on a formatted date whose fields are in range. -/
lemma pattern0_formatDate {y m d : Nat} (hy : y ≤ 9999) (hm1 : 1 ≤ m)
    (hm2 : m ≤ 12) (hd1 : 1 ≤ d) (hd2 : d ≤ 31) :
    pattern0 (formatDate y m d).data = some (y, m, d) := by
  have h2 : m ≤ 99 := by omega
  have h3 : d ≤ 99 := by omega
  have hz1 : zeroTo1 m = m := by unfold zeroTo1; rw [if_neg]; omega
  have hz2 : zeroTo1 d = d := by unfold zeroTo1; rw [if_neg]; omega
  simp only [formatDate, pattern0, isDig_digitChar_mod, Bool.and_self, if_true,
    numOf_four_digitChar y hy, numOf_two_digitChar m h2, numOf_two_digitChar d h3,
    hz1, hz2]
  rw [if_pos]
  simp only [Bool.and_eq_true, decide_eq_true_eq]
  omega

/-- Re-parsing a formatted date whose fields are in range returns it unchanged. -/
lemma parse_formatDate {y m d : Nat} (hy : y ≤ 9999) (hm1 : 1 ≤ m)
    (hm2 : m ≤ 12) (hd1 : 1 ≤ d) (hd2 : d ≤ 31) :
    parse_date_string (some (formatDate y m d)) = some (formatDate y m d) := by
  have hws : ∀ x ∈ (formatDate y m d).data, isWs x = false := by
    intro x hx
    rcases mem_formatDate_cases hx with h | rfl
    · exact isWs_of_isDig h
    · decide
  have hpar : ∀ x ∈ (formatDate y m d).data, isParen x = false := by
    intro x hx
    rcases mem_formatDate_cases hx with h | rfl
    · exact isParen_of_isDig h
    · decide
  have hq : ∀ x ∈ (formatDate y m d).data, isQmark x = false := by
    intro x hx
    rcases mem_formatDate_cases hx with h | rfl
    · exact isQmark_of_isDig h
    · decide
  have hclean : cleanup (formatDate y m d).data = (formatDate y m d).data := by
    have hshape : (formatDate y m d).data =
        Nat.digitChar (y / 1000 % 10) :: (formatDate y m d).data.tail := rfl
    rw [hshape] at hws hpar hq ⊢
    exact cleanup_noop (isDig_digitChar_mod _) hws hpar hq
  have hcore : parseCore (formatDate y m d).data = some (y, m, d) := by
    unfold parseCore
    rw [pattern0_formatDate hy hm1 hm2 hd1 hd2]
    rfl
  have hemp : (formatDate y m d).data.isEmpty = false := rfl
  simp only [parse_date_string, hclean, hcore, hemp, Bool.false_eq_true,
    if_false, Option.map_some']

/-! ## Bounds on the values produced by each pattern -/

lemma numOf_le_of_len2 {l : List Char} (hlen : l.length ≤ 2)
    (hd : ∀ c ∈ l, isDig c = true) : numOf l ≤ 99 := by
  rcases l with _ | ⟨a, _ | ⟨b, _ | ⟨c, t⟩⟩⟩
  · simp [numOf]
  · have h1 := dval_le (hd a (by simp))
    simp only [numOf, List.foldl]
    omega
  · have h1 := dval_le (hd a (by simp))
    have h2 := dval_le (hd b (by simp))
    simp only [numOf, List.foldl]
    omega
  · simp at hlen

lemma exact4Digits_le {l : List Char} {y : Nat} (h : exact4Digits l = some y) :
    y ≤ 9999 := by
  unfold exact4Digits at h
  split at h
  · rename_i a b c d
    split at h
    · rename_i hdig
      simp only [Bool.and_eq_true] at hdig
      obtain ⟨⟨⟨ha, hb⟩, hc⟩, hd⟩ := hdig
      have h1 := dval_le ha
      have h2 := dval_le hb
      have h3 := dval_le hc
      have h4 := dval_le hd
      injection h with h
      subst h
      simp only [numOf, List.foldl]
      omega
    · cases h
  · cases h

lemma month_map_bound {s : String} {m : Nat} (h : month_map s = some m) :
    1 ≤ m ∧ m ≤ 12 := by
  unfold month_map at h
  cases hf : MONTH_LIST.find? (fun p => p.1 = s) with
  | none => rw [hf] at h; cases h
  | some p =>
    rw [hf] at h
    injection h with h
    subst h
    have hall : ∀ q ∈ MONTH_LIST, 1 ≤ q.2 ∧ q.2 ≤ 12 := by decide
    exact hall p (List.mem_of_find?_eq_some hf)

lemma takeWhile_le_99 {s : List Char}
    (hlen : (s.takeWhile isDig).length ≤ 2) :
    numOf (s.takeWhile isDig) ≤ 99 :=
  numOf_le_of_len2 hlen (fun _ hc => List.mem_takeWhile_imp hc)

lemma pattern1_bound {s : List Char} {y m d : Nat}
    (h : pattern1 s = some (y, m, d)) :
    y ≤ 9999 ∧ 1 ≤ m ∧ m ≤ 12 ∧ d ≤ 99 := by
  simp only [pattern1] at h
  split at h
  · cases h
  · rename_i hlen
    split at h
    · cases h
    · split at h
      · cases h
      · split at h
        · rename_i year month h4 hmm
          simp only [Option.some.injEq, Prod.mk.injEq] at h
          obtain ⟨rfl, rfl, rfl⟩ := h
          refine ⟨exact4Digits_le h4, (month_map_bound hmm).1,
            (month_map_bound hmm).2, takeWhile_le_99 ?_⟩
          simp only [Bool.or_eq_true, decide_eq_true_eq, not_or] at hlen
          omega
        · cases h

lemma pattern0_bound {s : List Char} {y m d : Nat}
    (h : pattern0 s = some (y, m, d)) :
    y ≤ 9999 ∧ 1 ≤ m ∧ m ≤ 12 ∧ d ≤ 99 := by
  simp only [pattern0] at h
  split at h
  · rename_i a b c d' e f g h'
    split at h
    · rename_i hdig
      split at h
      · rename_i hrange
        simp only [Option.some.injEq, Prod.mk.injEq] at h
        obtain ⟨rfl, rfl, rfl⟩ := h
        simp only [Bool.and_eq_true, decide_eq_true_eq] at hdig hrange
        obtain ⟨⟨⟨⟨⟨⟨⟨ha, hb⟩, hc⟩, hd⟩, he⟩, hf⟩, hg⟩, hh⟩ := hdig
        refine ⟨?_, hrange.1.1.1, hrange.1.1.2, by omega⟩
        have b1 := dval_le ha
        have b2 := dval_le hb
        have b3 := dval_le hc
        have b4 := dval_le hd
        simp only [numOf, List.foldl]
        omega
      · cases h
    · cases h
  · cases h

lemma pattern2_bound {s : List Char} {y m d : Nat}
    (h : pattern2 s = some (y, m, d)) :
    y ≤ 9999 ∧ 1 ≤ m ∧ m ≤ 12 ∧ d ≤ 99 := by
  simp only [pattern2] at h
  split at h
  · cases h
  · split at h
    · rename_i year month h4 hmm
      simp only [Option.some.injEq, Prod.mk.injEq] at h
      obtain ⟨rfl, rfl, rfl⟩ := h
      exact ⟨exact4Digits_le h4, (month_map_bound hmm).1,
        (month_map_bound hmm).2, by omega⟩
    · cases h

lemma pattern3_bound {s : List Char} {y m d : Nat}
    (h : pattern3 s = some (y, m, d)) :
    y ≤ 9999 ∧ 1 ≤ m ∧ m ≤ 12 ∧ d ≤ 99 := by
  simp only [pattern3] at h
  split at h
  · rename_i year h4
    simp only [Option.some.injEq, Prod.mk.injEq] at h
    obtain ⟨rfl, rfl, rfl⟩ := h
    exact ⟨exact4Digits_le h4, by omega, by omega, by omega⟩
  · cases h

lemma pattern4_bound {s : List Char} {y m d : Nat}
    (h : pattern4 s = some (y, m, d)) :
    y ≤ 9999 ∧ 1 ≤ m ∧ m ≤ 12 ∧ d ≤ 99 := by
  simp only [pattern4] at h
  split at h
  · cases h
  · split at h
    · cases h
    · rename_i sep1 r2
      split at h
      · cases h
      · split at h
        · cases h
        · split at h
          · cases h
          · rename_i sep2 r4
            split at h
            · cases h
            · split at h
              · cases h
              · rename_i year h4
                split at h
                · rename_i hrange
                  simp only [Option.some.injEq, Prod.mk.injEq] at h
                  obtain ⟨rfl, rfl, rfl⟩ := h
                  simp only [Bool.and_eq_true, decide_eq_true_eq] at hrange
                  exact ⟨exact4Digits_le h4, hrange.1.1.1, hrange.1.1.2, by omega⟩
                · cases h

lemma pattern5_bound {s : List Char} {y m d : Nat}
    (h : pattern5 s = some (y, m, d)) :
    y ≤ 9999 ∧ 1 ≤ m ∧ m ≤ 12 ∧ d ≤ 99 := by
  simp only [pattern5] at h
  split at h
  · cases h
  · split at h
    · cases h
    · split at h
      · cases h
      · split at h
        · cases h
        · split at h
          · rename_i year h4
            split at h
            · rename_i hrange
              simp only [Option.some.injEq, Prod.mk.injEq] at h
              obtain ⟨rfl, rfl, rfl⟩ := h
              simp only [Bool.and_eq_true, decide_eq_true_eq] at hrange
              exact ⟨exact4Digits_le h4, hrange.1.1.1, hrange.1.1.2, by omega⟩
            · cases h
          · cases h

lemma pattern6_bound {s : List Char} {y m d : Nat}
    (h : pattern6 s = some (y, m, d)) :
    y ≤ 9999 ∧ 1 ≤ m ∧ m ≤ 12 ∧ d ≤ 99 := by
  simp only [pattern6] at h
  split at h
  · cases h
  · rename_i hlen
    split at h
    · cases h
    · split at h
      · cases h
      · split at h
        · rename_i year month h4 hmm
          simp only [Option.some.injEq, Prod.mk.injEq] at h
          obtain ⟨rfl, rfl, rfl⟩ := h
          refine ⟨exact4Digits_le h4, (month_map_bound hmm).1,
            (month_map_bound hmm).2, takeWhile_le_99 ?_⟩
          simp only [Bool.or_eq_true, decide_eq_true_eq, not_or] at hlen
          omega
        · cases h

lemma pattern7_bound {s : List Char} {y m d : Nat}
    (h : pattern7 s = some (y, m, d)) :
    y ≤ 9999 ∧ 1 ≤ m ∧ m ≤ 12 ∧ d ≤ 99 := by
  simp only [pattern7] at h
  split at h
  · cases h
  · rename_i hlen
    split at h
    · cases h
    · split at h
      · cases h
      · split at h
        · cases h
        · split at h
          · rename_i year month h4 hmm
            simp only [Option.some.injEq, Prod.mk.injEq] at h
            obtain ⟨rfl, rfl, rfl⟩ := h
            refine ⟨exact4Digits_le h4, (month_map_bound hmm).1,
              (month_map_bound hmm).2, takeWhile_le_99 ?_⟩
            simp only [Bool.or_eq_true, decide_eq_true_eq, not_or] at hlen
            omega
          · cases h

lemma tryDay_le {n : Nat} {l : List Char} {d y : Nat} (hn : n ≤ 2)
    (h : tryDay n l = some (d, y)) : d ≤ 99 ∧ y ≤ 9999 := by
  simp only [tryDay] at h
  split at h
  · rename_i hg
    simp only [Bool.and_eq_true, decide_eq_true_eq, List.all_eq_true] at hg
    cases h4 : exact4Digits ((optChar ',' (l.drop n)).dropWhile isWs) with
    | none => rw [h4] at h; cases h
    | some yy =>
      rw [h4] at h
      simp only [Option.map_some', Option.some.injEq, Prod.mk.injEq] at h
      obtain ⟨rfl, rfl⟩ := h
      exact ⟨numOf_le_of_len2 (by omega) hg.2, exact4Digits_le h4⟩
  · cases h

lemma tailDayYear_le {l : List Char} {d y : Nat}
    (h : tailDayYear l = some (d, y)) : d ≤ 99 ∧ y ≤ 9999 := by
  unfold tailDayYear at h
  cases h2 : tryDay 2 l with
  | some r =>
    rw [h2] at h
    injection h with h
    subst h
    exact tryDay_le (by omega) h2
  | none =>
    rw [h2] at h
    exact tryDay_le (by omega) h

lemma pattern8_bound {s : List Char} {y m d : Nat}
    (h : pattern8 s = some (y, m, d)) :
    y ≤ 9999 ∧ 1 ≤ m ∧ m ≤ 12 ∧ d ≤ 99 := by
  simp only [pattern8] at h
  split at h
  · cases h
  · split at h
    · rename_i dy month hdy hmm
      obtain ⟨dd, yy⟩ := dy
      simp only [Option.some.injEq, Prod.mk.injEq] at h
      obtain ⟨rfl, rfl, rfl⟩ := h
      have hb := tailDayYear_le hdy
      exact ⟨hb.2, (month_map_bound hmm).1, (month_map_bound hmm).2, hb.1⟩
    · cases h

lemma orElse_some_cases {α : Type} {a : Option α} {f : Unit → Option α} {x : α}
    (h : a.orElse f = some x) : a = some x ∨ f () = some x := by
  cases a with
  | none => right; exact h
  | some v => left; simpa [Option.orElse] using h

lemma parseCore_bound {s : List Char} {y m d : Nat}
    (h : parseCore s = some (y, m, d)) :
    y ≤ 9999 ∧ 1 ≤ m ∧ m ≤ 12 ∧ d ≤ 99 := by
  unfold parseCore at h
  rcases orElse_some_cases h with h | h
  · exact pattern0_bound h
  rcases orElse_some_cases h with h | h
  · exact pattern1_bound h
  rcases orElse_some_cases h with h | h
  · exact pattern2_bound h
  rcases orElse_some_cases h with h | h
  · exact pattern3_bound h
  rcases orElse_some_cases h with h | h
  · exact pattern4_bound h
  rcases orElse_some_cases h with h | h
  · exact pattern5_bound h
  rcases orElse_some_cases h with h | h
  · exact pattern6_bound h
  rcases orElse_some_cases h with h | h
  · exact pattern7_bound h
  exact pattern8_bound h

/-- Every successful parse is a bounded `formatDate` application. -/
lemma parse_shape {s d : String} (h : parse_date_string (some s) = some d) :
    ∃ y m day, y ≤ 9999 ∧ 1 ≤ m ∧ m ≤ 12 ∧ day ≤ 99 ∧ d = formatDate y m day := by
  have h' : (if s.data.isEmpty then none else
      if (cleanup s.data).isEmpty then none else
      (parseCore (cleanup s.data)).map (fun t => formatDate t.1 t.2.1 t.2.2)) =
      some d := h
  clear h
  split at h'
  · cases h'
  · split at h'
    · cases h'
    · cases hc : parseCore (cleanup s.data) with
      | none => rw [hc] at h'; cases h'
      | some t =>
        rw [hc] at h'
        obtain ⟨y, m, day⟩ := t
        have hb := parseCore_bound hc
        simp only [Option.map_some', Option.some.injEq] at h'
        exact ⟨y, m, day, hb.1, hb.2.1, hb.2.2.1, hb.2.2.2, h'.symm⟩

lemma monthValOf_formatDate (y m d : Nat) (hm : m ≤ 99) :
    monthValOf (formatDate y m d) = m := by
  show numOf [Nat.digitChar (m / 10 % 10), Nat.digitChar (m % 10)] = m
  exact numOf_two_digitChar m hm

lemma dayValOf_formatDate (y m d : Nat) (hd : d ≤ 99) :
    dayValOf (formatDate y m d) = d := by
  show numOf [Nat.digitChar (d / 10 % 10), Nat.digitChar (d % 10)] = d
  exact numOf_two_digitChar d hd

/-! ## Claim theorems about the Date Normalizer and Identifier Resolver -/

/-- C1 (counterexample): `parse_date_string` is not idempotent on its own
output.  On input "0 NOV 1954" it returns "1954-11-00" (pattern 1 performs no
day range check), and re-parsing "1954-11-00" yields "1954-11-01" (pattern 0
normalizes a 00 day to 01), which differs from the first output. -/
theorem c1_counterexample :
    parse_date_string (some "0 NOV 1954") = some "1954-11-00" ∧
    parse_date_string (some "1954-11-00") = some "1954-11-01" ∧
    some "1954-11-01" ≠ some "1954-11-00" :=
  ⟨by decide, by decide, by decide⟩

/-- C1 (amended): `parse_date_string` is idempotent on every output whose day
field lies between 01 and 31: if `parse_date_string s = some d` and the day
field of `d` is in 1..31, then `parse_date_string d = some d`.  (Outputs with
day 00 or day greater than 31 — producible only through the month-name
patterns, which skip the day range check — are the only exceptions.) -/
theorem c1_idempotent_on_valid_day (s d : String)
    (h : parse_date_string (some s) = some d)
    (h1 : 1 ≤ dayValOf d) (h2 : dayValOf d ≤ 31) :
    parse_date_string (some d) = some d := by
  obtain ⟨y, m, day, hy, hm1, hm2, hday, rfl⟩ := parse_shape h
  rw [dayValOf_formatDate y m day hday] at h1 h2
  exact parse_formatDate hy hm1 hm2 h1 h2

/-- Witness for C1 (amended) at a concrete input: re-parsing the canonical
output "1954-11-25" of "25 NOV 1954" returns it unchanged. -/
theorem c1_idempotent_on_valid_day_witness :
    parse_date_string (some "1954-11-25") = some "1954-11-25" :=
  c1_idempotent_on_valid_day "25 NOV 1954" "1954-11-25"
    (by decide) (by decide) (by decide)

/-- C2 (counterexample): the month-name patterns do not range-check the
numeric day, so `parse_date_string` can return a canonical date whose day
component is outside 01-31: input "99 NOV 1954" yields "1954-11-99". -/
theorem c2_counterexample :
    parse_date_string (some "99 NOV 1954") = some "1954-11-99" ∧
    dayValOf "1954-11-99" = 99 ∧ ¬ dayValOf "1954-11-99" ≤ 31 :=
  ⟨by decide, by decide, by decide⟩

/-- C2 (amended): the all-numeric patterns (0, 4 and 5) treat an out-of-range
month/day as a failed match, and every date returned by `parse_date_string`
has a month component between 01 and 12; the day bound 01-31, however, is
enforced only by the all-numeric patterns, and month-name patterns can emit a
day outside that range. -/
theorem c2_month_always_in_range :
    (∀ s d : String, parse_date_string (some s) = some d →
      1 ≤ monthValOf d ∧ monthValOf d ≤ 12) ∧
    pattern0 "1954-99-09".data = none ∧
    pattern4 "13/45/1920".data = none ∧
    pattern5 "0 0 1900".data = none := by
  refine ⟨fun s d h => ?_, by decide, by decide, by decide⟩
  obtain ⟨y, m, day, hy, hm1, hm2, hday, rfl⟩ := parse_shape h
  rw [monthValOf_formatDate y m day (by omega)]
  exact ⟨hm1, hm2⟩

/-- Witness for C2 (amended) at a concrete input. -/
theorem c2_month_always_in_range_witness :
    1 ≤ monthValOf "1901-09-01" ∧ monthValOf "1901-09-01" ≤ 12 :=
  c2_month_always_in_range.1 "SEPT 1901" "1901-09-01" (by decide)

/-- C8: `extract_numeric_id` strips every non-digit character and parses the
remainder; it returns the documented values on the two example tokens, and it
fails (raises `ValueError`, modelled as `Except.error`) exactly when the
token contains no digit at all. -/
theorem c8_extract_numeric_id :
    extract_numeric_id "@I_347421849@" = Except.ok 347421849 ∧
    extract_numeric_id "I674624289" = Except.ok 674624289 ∧
    ∀ s : String, (∃ msg, extract_numeric_id s = Except.error msg) ↔
      (∀ c ∈ s.data, isDig c = false) := by
  refine ⟨rfl, rfl, fun s => ?_⟩
  by_cases hemp : (s.data.filter isDig).isEmpty = true
  · rw [List.isEmpty_iff, List.filter_eq_nil_iff] at hemp
    constructor
    · intro _ c hc
      simpa using hemp c hc
    · intro _
      refine ⟨"No numeric ID found in: " ++ s, ?_⟩
      unfold extract_numeric_id
      rw [if_pos]
      rw [List.isEmpty_iff, List.filter_eq_nil_iff]
      intro c hc
      simpa using hemp c hc
  · constructor
    · intro ⟨msg, hmsg⟩
      unfold extract_numeric_id at hmsg
      rw [if_neg hemp] at hmsg
      cases hmsg
    · intro hall
      exfalso
      apply hemp
      rw [List.isEmpty_iff, List.filter_eq_nil_iff]
      intro c hc
      simp [hall c hc]

/-- Witness for C8 at a concrete digit-free token. -/
theorem c8_extract_numeric_id_witness :
    (∃ msg, extract_numeric_id "@X@" = Except.error msg) ↔
      (∀ c ∈ "@X@".data, isDig c = false) :=
  c8_extract_numeric_id.2.2 "@X@"

/-- C9: `parse_date_string` is total — on every input it returns either a
canonical date or `none`, never an exception (in the embedding it is a total
function into `Option String`); absent and empty input give `none`,
"not a date" gives `none`, and "25 NOV 1954" gives "1954-11-25". -/
theorem c9_parse_total :
    parse_date_string none = none ∧
    parse_date_string (some "") = none ∧
    parse_date_string (some "not a date") = none ∧
    parse_date_string (some "25 NOV 1954") = some "1954-11-25" ∧
    ∀ s : Option String,
      parse_date_string s = none ∨ ∃ d, parse_date_string s = some d := by
  refine ⟨rfl, by decide, by decide, by decide, fun s => ?_⟩
  cases hp : parse_date_string s with
  | none => exact Or.inl rfl
  | some d => exact Or.inr ⟨d, rfl⟩

/-- C10: every non-`none` result of `parse_date_string` is a ten-character
string of shape NNNN-NN-NN (digits at positions 0-3, 5-6 and 8-9, dashes at
positions 4 and 7), and its month field lies between 01 and 12. -/
theorem c10_canonical_shape (s d : String)
    (h : parse_date_string (some s) = some d) :
    d.length = 10 ∧
    (∀ i ∈ [0, 1, 2, 3, 5, 6, 8, 9], ∃ c, d.data[i]? = some c ∧ isDig c = true) ∧
    d.data[4]? = some '-' ∧ d.data[7]? = some '-' ∧
    1 ≤ monthValOf d ∧ monthValOf d ≤ 12 := by
  obtain ⟨y, m, day, hy, hm1, hm2, hday, rfl⟩ := parse_shape h
  refine ⟨rfl, ?_, rfl, rfl, ?_, ?_⟩
  · intro i hi
    fin_cases hi <;> exact ⟨_, rfl, isDig_digitChar_mod _⟩
  · rw [monthValOf_formatDate y m day (by omega)]; exact hm1
  · rw [monthValOf_formatDate y m day (by omega)]; exact hm2

/-- Witness for C10 at a concrete input. -/
theorem c10_canonical_shape_witness :
    "1837-05-01".length = 10 ∧
    (∀ i ∈ [0, 1, 2, 3, 5, 6, 8, 9],
      ∃ c, "1837-05-01".data[i]? = some c ∧ isDig c = true) ∧
    "1837-05-01".data[4]? = some '-' ∧ "1837-05-01".data[7]? = some '-' ∧
    1 ≤ monthValOf "1837-05-01" ∧ monthValOf "1837-05-01" ≤ 12 :=
  c10_canonical_shape "(May, 1837)" "1837-05-01" (by decide)

/-! ## The relationship graph (src/graph.py)

A `networkx.DiGraph` built by `build_graph` is modelled as a node list with
attributes and an edge list with a `relationship_type` attribute.  NetworkX
node and edge keys are unique; graphs produced by `build_graph` satisfy
`EdgeKeysNodup` below, which is assumed where a proof needs key uniqueness. -/

/-- Node attributes attached by `build_graph` (src/graph.py, lines 16-26). -/
structure NodeData where
  person_name : String := ""
  sex : Option String := none
  birth_date : Option String := none
  death_date : Option String := none
  given_name : Option String := none
  surname : Option String := none
deriving DecidableEq

/-- A directed graph: nodes with attributes, edges with their
`relationship_type` attribute. -/
structure Graph where
  nodes : List (Nat × NodeData)
  edges : List (Nat × Nat × String)
deriving DecidableEq

def Graph.hasNode (G : Graph) (n : Nat) : Bool :=
  G.nodes.any (fun p => p.1 = n)

def Graph.nodeData (G : Graph) (n : Nat) : Option NodeData :=
  (G.nodes.find? (fun p => p.1 = n)).map (fun p => p.2)

/-- `G.nodes[n].get("sex")`. -/
def sexOf (G : Graph) (n : Nat) : Option String :=
  (G.nodeData n).bind (fun d => d.sex)

/-- `G.nodes[n].get("birth_date")`. -/
def birthOf (G : Graph) (n : Nat) : Option String :=
  (G.nodeData n).bind (fun d => d.birth_date)

/-- `G.nodes[n].get("death_date")`. -/
def deathOf (G : Graph) (n : Nat) : Option String :=
  (G.nodeData n).bind (fun d => d.death_date)

/-- `G.predecessors(v)` in edge-insertion order. -/
def Graph.preds (G : Graph) (v : Nat) : List Nat :=
  G.edges.filterMap (fun e => if e.2.1 = v then some e.1 else none)

/-- `G.successors(u)` in edge-insertion order. -/
def Graph.succs (G : Graph) (u : Nat) : List Nat :=
  G.edges.filterMap (fun e => if e.1 = u then some e.2.1 else none)

/-- `G.edges[u, v].get("relationship_type")` (the unique edge in networkx;
first-found in this list model). -/
def edgeType (G : Graph) (u v : Nat) : Option String :=
  (G.edges.find? (fun e => e.1 = u && e.2.1 = v)).map (fun e => e.2.2)

/-- Well-formedness enjoyed by every networkx graph: one edge per ordered
node pair. -/
abbrev EdgeKeysNodup (G : Graph) : Prop :=
  (G.edges.map (fun e => (e.1, e.2.1))).Nodup

/-- Well-formedness enjoyed by every networkx graph: edge endpoints are
nodes of the graph. -/
abbrev EdgesClosed (G : Graph) : Prop :=
  ∀ e ∈ G.edges, G.hasNode e.1 = true ∧ G.hasNode e.2.1 = true

/-- Undirected neighbours of `u` (the `G.to_undirected()` view). -/
def Graph.nbrs (G : Graph) (u : Nat) : Finset Nat :=
  (G.edges.filterMap (fun e =>
    if e.1 = u then some e.2.1
    else if e.2.1 = u then some e.1 else none)).toFinset

/-- Nodes within undirected distance `r` of `c`: the node set of
`nx.ego_graph(G.to_undirected(), c, radius=r)`. -/
def ball (G : Graph) (c : Nat) : Nat → Finset Nat
  | 0 => {c}
  | r + 1 => ball G c r ∪ (ball G c r).biUnion (fun u => G.nbrs u)

/-- An induced subgraph: the chosen node set and the induced edges,
modelling `G.subgraph(nodes).copy()`. -/
structure SubG where
  nodes : Finset Nat
  edges : List (Nat × Nat × String)
deriving DecidableEq

def inducedEdges (G : Graph) (s : Finset Nat) : List (Nat × Nat × String) :=
  G.edges.filter (fun e => decide (e.1 ∈ s) && decide (e.2.1 ∈ s))

/-- Embedding of `get_ego_subgraph` (src/graph.py, lines 36-57); the
`ValueError` for an absent center is modelled as `none`. -/
def get_ego_subgraph (G : Graph) (center radius : Nat) : Option SubG :=
  if G.hasNode center then
    some ⟨ball G center radius, inducedEdges G (ball G center radius)⟩
  else none

/-! ## Lineage subgraph (src/graph.py, lines 60-122) -/

/-- The first `PARENT_OF` predecessor of `cur` whose `sex` attribute equals
`sex` (lines 110-117). -/
def nextParent (G : Graph) (sex : String) (cur : Nat) : Option Nat :=
  G.edges.findSome? (fun e =>
    if e.2.1 = cur && e.2.2 = "PARENT_OF" && sexOf G e.1 = some sex then
      some e.1
    else none)

/-- The radius-0 special case (lines 95-103): the current node plus every
node joined to it by a `SPOUSE_OF` edge as predecessor or successor. -/
def spouseContrib (G : Graph) (cur : Nat) : Finset Nat :=
  (G.succs cur).foldl
    (fun acc q => if edgeType G cur q = some "SPOUSE_OF" then insert q acc else acc)
    ((G.preds cur).foldl
      (fun acc p => if edgeType G p cur = some "SPOUSE_OF" then insert p acc else acc)
      {cur})

/-- The per-node contribution of the lineage walk (lines 94-106): the
spouse set when `radius = 0`, the ego ball otherwise. -/
def contribution (G : Graph) (radius cur : Nat) : Finset Nat :=
  if radius = 0 then spouseContrib G cur else ball G cur radius

/-- The `while current_id is not None` loop of `get_lineage_subgraph`
(lines 92-119), with explicit fuel; `none` models a loop that has not
finished within `fuel` iterations. -/
def lineageAux (G : Graph) (sex : String) (radius : Nat) :
    Nat → Nat → Finset Nat → Option (Finset Nat)
  | 0, _, _ => none
  | fuel + 1, cur, acc =>
    match nextParent G sex cur with
    | none => some (acc ∪ contribution G radius cur)
    | some p => lineageAux G sex radius fuel p (acc ∪ contribution G radius cur)

/-- Embedding of `get_lineage_subgraph` (lines 60-122). -/
def get_lineage_subgraph (G : Graph) (center : Nat) (sex : String)
    (radius fuel : Nat) : Option SubG :=
  if G.hasNode center then
    (lineageAux G sex radius fuel center ∅).map (fun s => ⟨s, inducedEdges G s⟩)
  else none

/-- The list of nodes visited by the lineage walk, cut off at `fuel` steps. -/
def visitedChain (G : Graph) (sex : String) : Nat → Nat → List Nat
  | 0, _ => []
  | fuel + 1, cur =>
    cur :: (match nextParent G sex cur with
            | none => []
            | some p => visitedChain G sex fuel p)

/-- A directed `PARENT_OF` edge from `p` to `c`. -/
def parentEdge (G : Graph) (p c : Nat) : Prop :=
  (p, c, "PARENT_OF") ∈ G.edges

/-- No directed cycle through the `PARENT_OF` edges. -/
def ParentAcyclic (G : Graph) : Prop :=
  ∀ u, ¬ Relation.TransGen (parentEdge G) u u

/-! ## Lemmas about the ego subgraph (claim C6) -/

lemma ball_succ_subset (G : Graph) (c r : Nat) :
    ball G c r ⊆ ball G c (r + 1) := by
  show ball G c r ⊆ ball G c r ∪ (ball G c r).biUnion (fun u => G.nbrs u)
  exact Finset.subset_union_left

lemma ball_mono (G : Graph) (c : Nat) {r1 r2 : Nat} (h : r1 ≤ r2) :
    ball G c r1 ⊆ ball G c r2 := by
  induction r2, h using Nat.le_induction with
  | base => exact subset_rfl
  | succ n hn ih => exact ih.trans (ball_succ_subset G c n)

/-- C6: with `radius = 0`, `get_ego_subgraph` returns exactly the center
node, and for a fixed graph and center the returned node count is
monotonically nondecreasing in the radius. -/
theorem c6_ego_radius_zero_and_monotone (G : Graph) (center : Nat)
    (h : G.hasNode center = true) :
    (∃ H, get_ego_subgraph G center 0 = some H ∧
      H.nodes = {center} ∧ H.nodes.card = 1) ∧
    (∀ r1 r2 : Nat, r1 ≤ r2 → ∀ H1 H2,
      get_ego_subgraph G center r1 = some H1 →
      get_ego_subgraph G center r2 = some H2 →
      H1.nodes.card ≤ H2.nodes.card) := by
  constructor
  · refine ⟨⟨ball G center 0, inducedEdges G (ball G center 0)⟩, ?_, rfl, ?_⟩
    · rw [get_ego_subgraph, if_pos h]
    · exact Finset.card_singleton center
  · intro r1 r2 hr H1 H2 h1 h2
    rw [get_ego_subgraph, if_pos h] at h1 h2
    injection h1 with h1
    injection h2 with h2
    rw [← h1, ← h2]
    exact Finset.card_le_card (ball_mono G center hr)

/-- A five-person path graph, used as a concrete witness instance. -/
def G5 : Graph :=
  ⟨[(1, {}), (2, {}), (3, {}), (4, {}), (5, {})],
   [(1, 2, "PARENT_OF"), (2, 3, "PARENT_OF"), (3, 4, "PARENT_OF"),
    (4, 5, "PARENT_OF")]⟩

/-- Witness for C6: on a connected five-person graph, the radius-0 ego
subgraph around person 3 has exactly one node. -/
theorem c6_ego_radius_zero_and_monotone_witness :
    ∃ H, get_ego_subgraph G5 3 0 = some H ∧
      H.nodes = {3} ∧ H.nodes.card = 1 :=
  (c6_ego_radius_zero_and_monotone G5 3 (by decide)).1

/-! ## Lemmas for the radius-0 lineage contribution (claim C7) -/

lemma mem_foldl_insert_filter {l : List Nat} {P : Nat → Prop} [DecidablePred P]
    {init : Finset Nat} {v : Nat} :
    v ∈ l.foldl (fun acc x => if P x then insert x acc else acc) init ↔
      v ∈ init ∨ (v ∈ l ∧ P v) := by
  induction l generalizing init with
  | nil => simp
  | cons x xs ih =>
    simp only [List.foldl_cons]
    rw [ih]
    by_cases hP : P x
    · rw [if_pos hP]
      constructor
      · rintro (hv | ⟨hvx, hPv⟩)
        · rcases Finset.mem_insert.mp hv with rfl | hv
          · exact Or.inr ⟨List.mem_cons_self _ _, hP⟩
          · exact Or.inl hv
        · exact Or.inr ⟨List.mem_cons_of_mem _ hvx, hPv⟩
      · rintro (hv | ⟨hvx, hPv⟩)
        · exact Or.inl (Finset.mem_insert_of_mem hv)
        · rcases List.mem_cons.mp hvx with rfl | hm
          · exact Or.inl (Finset.mem_insert_self _ _)
          · exact Or.inr ⟨hm, hPv⟩
    · rw [if_neg hP]
      constructor
      · rintro (hv | ⟨hvx, hPv⟩)
        · exact Or.inl hv
        · exact Or.inr ⟨List.mem_cons_of_mem _ hvx, hPv⟩
      · rintro (hv | ⟨hvx, hPv⟩)
        · exact Or.inl hv
        · rcases List.mem_cons.mp hvx with rfl | hm
          · exact absurd hPv hP
          · exact Or.inr ⟨hm, hPv⟩

/-- `find?`-based edge-attribute lookup agrees with membership when edge
keys are unique. -/
lemma find?_edge_eq_iff {l : List (Nat × Nat × String)}
    (hnd : (l.map (fun e => (e.1, e.2.1))).Nodup) {u v : Nat} {t : String} :
    (l.find? (fun e => e.1 = u && e.2.1 = v)).map (fun e => e.2.2) = some t ↔
      (u, v, t) ∈ l := by
  induction l with
  | nil => simp
  | cons e es ih =>
    obtain ⟨a, b, tt⟩ := e
    simp only [List.map_cons, List.nodup_cons] at hnd
    by_cases hk : a = u ∧ b = v
    · obtain ⟨rfl, rfl⟩ := hk
      rw [List.find?_cons_of_pos _ (by simp)]
      simp only [Option.map_some', Option.some.injEq, List.mem_cons]
      constructor
      · rintro rfl
        exact Or.inl rfl
      · rintro (heq | hmem)
        · injection heq with _ heq
          injection heq with _ heq
          exact heq.symm
        · exfalso
          exact hnd.1 (List.mem_map.mpr ⟨(a, b, t), hmem, rfl⟩)
    · rw [List.find?_cons_of_neg _ (by simpa using hk)]
      rw [ih hnd.2]
      simp only [List.mem_cons]
      constructor
      · exact Or.inr
      · rintro (heq | hmem)
        · exfalso
          apply hk
          injection heq with h1 heq
          injection heq with h2 _
          exact ⟨h1.symm, h2.symm⟩
        · exact hmem

lemma edgeType_eq_iff {G : Graph} (hnd : EdgeKeysNodup G) {u v : Nat}
    {t : String} : edgeType G u v = some t ↔ (u, v, t) ∈ G.edges :=
  find?_edge_eq_iff hnd

lemma mem_preds_of_edge {G : Graph} {v cur : Nat} {t : String}
    (h : (v, cur, t) ∈ G.edges) : v ∈ G.preds cur :=
  List.mem_filterMap.mpr ⟨(v, cur, t), h, by simp⟩

lemma mem_succs_of_edge {G : Graph} {cur q : Nat} {t : String}
    (h : (cur, q, t) ∈ G.edges) : q ∈ G.succs cur :=
  List.mem_filterMap.mpr ⟨(cur, q, t), h, by simp⟩

lemma mem_spouseContrib_iff {G : Graph} (hnd : EdgeKeysNodup G)
    {cur v : Nat} :
    v ∈ spouseContrib G cur ↔
      v = cur ∨ (v, cur, "SPOUSE_OF") ∈ G.edges ∨
        (cur, v, "SPOUSE_OF") ∈ G.edges := by
  unfold spouseContrib
  rw [mem_foldl_insert_filter, mem_foldl_insert_filter]
  simp only [Finset.mem_singleton]
  constructor
  · rintro ((rfl | ⟨_, hp⟩) | ⟨_, hq⟩)
    · exact Or.inl rfl
    · exact Or.inr (Or.inl ((edgeType_eq_iff hnd).mp hp))
    · exact Or.inr (Or.inr ((edgeType_eq_iff hnd).mp hq))
  · rintro (rfl | hp | hq)
    · exact Or.inl (Or.inl rfl)
    · exact Or.inl (Or.inr ⟨mem_preds_of_edge hp, (edgeType_eq_iff hnd).mpr hp⟩)
    · exact Or.inr ⟨mem_succs_of_edge hq, (edgeType_eq_iff hnd).mpr hq⟩

/-- The spec-side description of the radius-0 contribution: exactly the
current node plus any node joined to it by a `SPOUSE_OF` edge in either
direction. -/
def specSpouseSet (G : Graph) (cur : Nat) : Finset Nat :=
  insert cur ((G.edges.filterMap (fun e =>
    if e.2.2 = "SPOUSE_OF" && e.1 = cur then some e.2.1
    else if e.2.2 = "SPOUSE_OF" && e.2.1 = cur then some e.1 else none)).toFinset)

lemma mem_specSpouseSet_iff {G : Graph} {cur v : Nat} :
    v ∈ specSpouseSet G cur ↔
      v = cur ∨ (v, cur, "SPOUSE_OF") ∈ G.edges ∨
        (cur, v, "SPOUSE_OF") ∈ G.edges := by
  unfold specSpouseSet
  rw [Finset.mem_insert, List.mem_toFinset, List.mem_filterMap]
  constructor
  · rintro (rfl | ⟨e, hmem, hfe⟩)
    · exact Or.inl rfl
    · obtain ⟨a, b, t⟩ := e
      by_cases h1 : t = "SPOUSE_OF" ∧ a = cur
      · obtain ⟨rfl, rfl⟩ := h1
        rw [if_pos (by simp)] at hfe
        injection hfe with hfe
        subst hfe
        exact Or.inr (Or.inr hmem)
      · rw [if_neg (by simpa using h1)] at hfe
        by_cases h2 : t = "SPOUSE_OF" ∧ b = cur
        · obtain ⟨rfl, rfl⟩ := h2
          rw [if_pos (by simp)] at hfe
          injection hfe with hfe
          subst hfe
          exact Or.inr (Or.inl hmem)
        · rw [if_neg (by simpa using h2)] at hfe
          cases hfe
  · rintro (rfl | hp | hq)
    · exact Or.inl rfl
    · refine Or.inr ⟨(v, cur, "SPOUSE_OF"), hp, ?_⟩
      by_cases hvc : v = cur
      · subst hvc
        rw [if_pos (by simp)]
      · rw [if_neg (by simpa using fun h => absurd h hvc), if_pos (by simp)]
    · refine Or.inr ⟨(cur, v, "SPOUSE_OF"), hq, ?_⟩
      rw [if_pos (by simp)]

/-- Two spouses, used as a concrete instance showing the radius-0
contribution differs from the radius-0 ego ball. -/
def G7 : Graph := ⟨[(1, {}), (2, {})], [(1, 2, "SPOUSE_OF")]⟩

/-- C7: in `get_lineage_subgraph` with `radius = 0`, the per-node
contribution is exactly the current node plus every node joined to it by a
`SPOUSE_OF` edge in either direction, and it is not the radius-0 ego ball
(on `G7`, node 1's contribution is `{1, 2}` while the radius-0 ego ball is
`{1}`). -/
theorem c7_radius_zero_contribution :
    (∀ (G : Graph) (cur : Nat), EdgeKeysNodup G →
      contribution G 0 cur = specSpouseSet G cur) ∧
    spouseContrib G7 1 ≠ ball G7 1 0 := by
  constructor
  · intro G cur hnd
    show spouseContrib G cur = specSpouseSet G cur
    apply Finset.ext
    intro v
    rw [mem_spouseContrib_iff hnd, mem_specSpouseSet_iff]
  · decide

/-- Witness for C7 on a concrete graph. -/
theorem c7_radius_zero_contribution_witness :
    contribution G7 0 1 = specSpouseSet G7 1 :=
  c7_radius_zero_contribution.1 G7 1 (by decide)

/-! ## Termination of the lineage walk (claim C3) -/

lemma findSome?_mem {α β : Type} {f : α → Option β} {l : List α} {b : β}
    (h : l.findSome? f = some b) : ∃ a ∈ l, f a = some b := by
  induction l with
  | nil => cases h
  | cons x xs ih =>
    rw [List.findSome?_cons] at h
    cases hf : f x with
    | some v =>
      rw [hf] at h
      injection h with h
      exact ⟨x, List.mem_cons_self _ _, by rw [hf, h]⟩
    | none =>
      rw [hf] at h
      obtain ⟨a, ha, hfa⟩ := ih h
      exact ⟨a, List.mem_cons_of_mem _ ha, hfa⟩

lemma nextParent_edge {G : Graph} {sex : String} {a b : Nat}
    (h : nextParent G sex a = some b) : (b, a, "PARENT_OF") ∈ G.edges := by
  obtain ⟨e, hmem, hfe⟩ := findSome?_mem h
  obtain ⟨p, q, t⟩ := e
  split at hfe
  · rename_i hcond
    simp only [Bool.and_eq_true, decide_eq_true_eq] at hcond
    obtain ⟨⟨rfl, rfl⟩, _⟩ := hcond
    obtain rfl : p = b := by injection hfe
    exact hmem
  · cases hfe

lemma visitedChain_mem_rtg {G : Graph} {sex : String} :
    ∀ {fuel start v}, v ∈ visitedChain G sex fuel start →
      Relation.ReflTransGen (fun a b => nextParent G sex a = some b) start v := by
  intro fuel
  induction fuel with
  | zero => intro start v h; cases h
  | succ n ih =>
    intro start v h
    rw [visitedChain] at h
    rcases List.mem_cons.mp h with rfl | h2
    · exact Relation.ReflTransGen.refl
    · cases hnp : nextParent G sex start with
      | none => rw [hnp] at h2; cases h2
      | some p =>
        rw [hnp] at h2
        exact Relation.ReflTransGen.head hnp (ih h2)

lemma visitedChain_nodup {G : Graph} (sex : String) (hacyc : ParentAcyclic G) :
    ∀ fuel start, (visitedChain G sex fuel start).Nodup := by
  intro fuel
  induction fuel with
  | zero => intro start; exact List.nodup_nil
  | succ n ih =>
    intro start
    rw [visitedChain]
    cases hnp : nextParent G sex start with
    | none => simp
    | some p =>
      refine List.nodup_cons.mpr ⟨?_, ih p⟩
      intro hmem
      replace hmem : start ∈ visitedChain G sex n p := hmem
      have hstep : Relation.TransGen (fun a b => nextParent G sex a = some b)
          start start :=
        Relation.TransGen.head' hnp (visitedChain_mem_rtg hmem)
      have hswap : Relation.TransGen (Function.swap (parentEdge G))
          start start :=
        hstep.mono (fun a b hab => nextParent_edge hab)
      exact hacyc start (Relation.transGen_swap.mp hswap)

lemma visitedChain_hasNode {G : Graph} (sex : String)
    (hclosed : EdgesClosed G) :
    ∀ fuel start, G.hasNode start = true →
      ∀ v ∈ visitedChain G sex fuel start, G.hasNode v = true := by
  intro fuel
  induction fuel with
  | zero => intro start _ v hv; cases hv
  | succ n ih =>
    intro start hstart v hv
    rw [visitedChain] at hv
    rcases List.mem_cons.mp hv with rfl | h2
    · exact hstart
    · cases hnp : nextParent G sex start with
      | none => rw [hnp] at h2; cases h2
      | some p =>
        rw [hnp] at h2
        exact ih p ((hclosed _ (nextParent_edge hnp)).1) v h2

lemma lineageAux_none_chain {G : Graph} {sex : String} {radius : Nat} :
    ∀ fuel cur acc, lineageAux G sex radius fuel cur acc = none →
      (visitedChain G sex fuel cur).length = fuel := by
  intro fuel
  induction fuel with
  | zero => intro cur acc _; rfl
  | succ n ih =>
    intro cur acc h
    rw [lineageAux] at h
    rw [visitedChain]
    cases hnp : nextParent G sex cur with
    | none => rw [hnp] at h; cases h
    | some p =>
      rw [hnp] at h
      simp only [List.length_cons]
      rw [ih p _ h]

lemma lineageAux_some_fold {G : Graph} {sex : String} {radius : Nat} :
    ∀ fuel cur acc s, lineageAux G sex radius fuel cur acc = some s →
      s = (visitedChain G sex fuel cur).foldl
        (fun t v => t ∪ contribution G radius v) acc := by
  intro fuel
  induction fuel with
  | zero => intro cur acc s h; cases h
  | succ n ih =>
    intro cur acc s h
    rw [lineageAux] at h
    rw [visitedChain]
    cases hnp : nextParent G sex cur with
    | none =>
      rw [hnp] at h
      injection h with h
      simp only [List.foldl_cons, List.foldl_nil]
      exact h.symm
    | some p =>
      rw [hnp] at h
      simp only [List.foldl_cons]
      exact ih p _ s h

/-- C3 (amended): on graphs whose `PARENT_OF` edges contain no directed
cycle (and whose edges connect graph nodes), the lineage walk terminates
within `|nodes| + 1` steps and returns the union of the per-node
contributions of all visited nodes. -/
theorem c3_lineage_terminates_acyclic (G : Graph) (center : Nat)
    (sex : String) (radius : Nat)
    (hc : G.hasNode center = true) (hclosed : EdgesClosed G)
    (hacyc : ParentAcyclic G) :
    ∃ H, get_lineage_subgraph G center sex radius (G.nodes.length + 1) =
        some H ∧
      H.nodes = (visitedChain G sex (G.nodes.length + 1) center).foldl
        (fun t v => t ∪ contribution G radius v) ∅ := by
  cases hla : lineageAux G sex radius (G.nodes.length + 1) center ∅ with
  | none =>
    exfalso
    have hlen := lineageAux_none_chain (G.nodes.length + 1) center ∅ hla
    have hnd := visitedChain_nodup sex hacyc (G.nodes.length + 1) center
    have hmem := visitedChain_hasNode sex hclosed (G.nodes.length + 1) center hc
    have h1 : (visitedChain G sex (G.nodes.length + 1) center).toFinset.card =
        G.nodes.length + 1 := by
      rw [List.toFinset_card_of_nodup hnd, hlen]
    have h2 : (visitedChain G sex (G.nodes.length + 1) center).toFinset ⊆
        (G.nodes.map (fun p => p.1)).toFinset := by
      intro v hv
      rw [List.mem_toFinset] at hv ⊢
      have hvn := hmem v hv
      rw [Graph.hasNode, List.any_eq_true] at hvn
      obtain ⟨p, hp, hpv⟩ := hvn
      exact List.mem_map.mpr ⟨p, hp, by simpa using hpv⟩
    have h3 := Finset.card_le_card h2
    have h4 := List.toFinset_card_le (G.nodes.map (fun p => p.1))
    rw [List.length_map] at h4
    omega
  | some s =>
    refine ⟨⟨s, inducedEdges G s⟩, ?_, ?_⟩
    · rw [get_lineage_subgraph, if_pos hc, hla]
      rfl
    · exact lineageAux_some_fold (G.nodes.length + 1) center ∅ s hla

/-- A one-person graph with no edges, for the C3 witness. -/
def G1 : Graph := ⟨[(1, {})], []⟩

lemma G1_acyclic : ParentAcyclic G1 := by
  intro u h
  cases h with
  | single h' => exact absurd h' (by simp [parentEdge, G1])
  | tail _ h' => exact absurd h' (by simp [parentEdge, G1])

/-- Witness for C3 (amended) on a concrete acyclic graph. -/
theorem c3_lineage_terminates_acyclic_witness :
    ∃ H, get_lineage_subgraph G1 1 "M" 2 (G1.nodes.length + 1) = some H ∧
      H.nodes = (visitedChain G1 "M" (G1.nodes.length + 1) 1).foldl
        (fun t v => t ∪ contribution G1 2 v) ∅ :=
  c3_lineage_terminates_acyclic G1 1 "M" 2 (by decide)
    (fun e he => absurd he (List.not_mem_nil e)) G1_acyclic

/-- A two-person parental cycle where both persons have sex "M": the
Python `while` loop of `get_lineage_subgraph` alternates 1, 2, 1, 2, ...
for ever. -/
def GC : Graph :=
  ⟨[(1, { sex := some "M" }), (2, { sex := some "M" })],
   [(1, 2, "PARENT_OF"), (2, 1, "PARENT_OF")]⟩

lemma lineageAux_GC_none : ∀ (fuel : Nat) (acc : Finset Nat) (cur : Nat),
    cur = 1 ∨ cur = 2 → lineageAux GC "M" 1 fuel cur acc = none := by
  intro fuel
  induction fuel with
  | zero => intro acc cur _; rfl
  | succ n ih =>
    intro acc cur hcur
    rcases hcur with rfl | rfl
    · rw [lineageAux]
      rw [show nextParent GC "M" 1 = some 2 from by decide]
      exact ih _ 2 (Or.inr rfl)
    · rw [lineageAux]
      rw [show nextParent GC "M" 2 = some 1 from by decide]
      exact ih _ 1 (Or.inl rfl)

/-- C3 (counterexample): the claim that the lineage walk terminates on
every finite graph is false — on the two-node parental cycle `GC` (center
present in the graph) the walk never reaches a node without a matching
parent, so no amount of fuel makes `get_lineage_subgraph` return. -/
theorem c3_counterexample :
    GC.hasNode 1 = true ∧
    ¬ ∃ (fuel : Nat) (H : SubG),
        get_lineage_subgraph GC 1 "M" 1 fuel = some H := by
  refine ⟨by decide, ?_⟩
  rintro ⟨fuel, H, hH⟩
  rw [get_lineage_subgraph, if_pos (by decide),
    lineageAux_GC_none fuel ∅ 1 (Or.inl rfl)] at hH
  cases hH

/-! ## Validation (src/validation.py)

The Python validator appends formatted warning strings built from the person
names; the embedding records the kind of diagnostic and the node identities
it concerns instead of the display text. -/

inductive Diag where
  | cycleDetected : Diag
  | bornBeforeParent (parent child : Nat) : Diag
  | youngParent (parent child : Nat) : Diag
  | diedBeforeBorn (who : Nat) : Diag
deriving DecidableEq

/-- Python string `<`: lexicographic comparison by code point. -/
def listLtB : List Char → List Char → Bool
  | [], [] => false
  | [], _ :: _ => true
  | _ :: _, [] => false
  | a :: as, b :: bs =>
    if a.toNat < b.toNat then true
    else if b.toNat < a.toNat then false
    else listLtB as bs

def strLtB (a b : String) : Bool := listLtB a.data b.data

/-- Sign-and-digits part of Python `int` (see `pyIntOpt`). -/
def pyIntDigits : List Char → Option Int
  | [] => none
  | c :: rest =>
    if c = '-' then
      if rest.isEmpty then none
      else if rest.all isDig then some (-(numOf rest : Int)) else none
    else if c = '+' then
      if rest.isEmpty then none
      else if rest.all isDig then some ((numOf rest : Int)) else none
    else if (c :: rest).all isDig then some ((numOf (c :: rest) : Int))
    else none

/-- Python `int(s)` as used on the `birth_date[:4]` slice: optional
surrounding whitespace and sign, then a nonempty all-digit string (digit
separators are not modelled).  `none` models the caught `ValueError`. -/
def pyIntOpt (l : List Char) : Option Int :=
  pyIntDigits (stripEnds isWs l)

/-- One iteration of the chronology loop (src/validation.py, lines 33-62)
for a `PARENT_OF` edge from `parent` to `child`: empty/absent dates skip the
checks (Python truthiness); a lexicographically smaller child birth date
reports born-before-parent; otherwise a year gap below 12 (computed with
`int` on the 4-character year prefixes, `ValueError`/`IndexError` ignored)
reports a suspiciously young parent. -/
def chronBody (parent child : Nat) : Option String → Option String → Option Diag
  | some parent_birth, some child_birth =>
    if parent_birth = "" || child_birth = "" then none
    else if strLtB child_birth parent_birth then
      some (Diag.bornBeforeParent parent child)
    else
      match pyIntOpt (parent_birth.data.take 4),
          pyIntOpt (child_birth.data.take 4) with
      | some parent_year, some child_year =>
        if child_year - parent_year < 12 then
          some (Diag.youngParent parent child)
        else none
      | _, _ => none
  | _, _ => none

def chronCheck (G : Graph) (parent child : Nat) : Option Diag :=
  chronBody parent child (birthOf G parent) (birthOf G child)

/-- The chronology pass over all `PARENT_OF` edges (lines 33-62). -/
def chronDiags (G : Graph) : List Diag :=
  G.edges.filterMap (fun e =>
    if e.2.2 = "PARENT_OF" then chronCheck G e.1 e.2.1 else none)

/-- The death-before-birth pass over all nodes (lines 64-70). -/
def lifespanDiags (G : Graph) : List Diag :=
  G.nodes.filterMap (fun nd =>
    match nd.2.birth_date, nd.2.death_date with
    | some birth, some death =>
      if birth = "" || death = "" then none
      else if strLtB death birth then some (Diag.diedBeforeBorn nd.1)
      else none
    | _, _ => none)

/-- The edges of the `PARENT_OF`-only graph built for cycle detection
(lines 18-21). -/
def parentOfEdges (G : Graph) : List (Nat × Nat) :=
  G.edges.filterMap (fun e =>
    if e.2.2 = "PARENT_OF" then some (e.1, e.2.1) else none)

def succsIn (es : List (Nat × Nat)) (u : Nat) : Finset Nat :=
  (es.filterMap (fun e => if e.1 = u then some e.2 else none)).toFinset

def stepSet (es : List (Nat × Nat)) (s : Finset Nat) : Finset Nat :=
  s ∪ s.biUnion (fun u => succsIn es u)

/-- Whether the `PARENT_OF` subgraph contains a directed cycle, decided by
self-reachability in at least one step.  `nx.find_cycle` raises
`NetworkXNoCycle` exactly when no cycle exists; which cycle it reports when
several exist is internal to networkx and is not modelled. -/
def hasCycleParent (G : Graph) : Bool :=
  (parentOfEdges G).any (fun e =>
    e.1 ∈ Nat.iterate (stepSet (parentOfEdges G)) (parentOfEdges G).length
      (succsIn (parentOfEdges G) e.1))

/-- The cycle pass (lines 23-29). -/
def cycleDiags (G : Graph) : List Diag :=
  if hasCycleParent G then [Diag.cycleDetected] else []

/-- Embedding of `validate_graph` (src/validation.py, lines 6-72): all three
passes run unconditionally and their diagnostics are concatenated in
program order. -/
def validate_graph (G : Graph) : List Diag :=
  cycleDiags G ++ chronDiags G ++ lifespanDiags G

/-- Shape test NNNN-NN-NN, used to state the chronology claim for canonical
birth dates. -/
def isCanonicalShape (s : String) : Bool :=
  match s.data with
  | [a, b, c, d, '-', e, f, '-', g, h] =>
    isDig a && isDig b && isDig c && isDig d && isDig e && isDig f &&
      isDig g && isDig h
  | _ => false

/-- The 4-digit year prefix of a canonical date, as an integer. -/
def yearOfCanonical (s : String) : Int := (numOf (s.data.take 4) : Int)

lemma canonical_shape_data {s : String} (h : isCanonicalShape s = true) :
    ∃ a b c d e f g i, s.data = [a, b, c, d, '-', e, f, '-', g, i] ∧
      isDig a = true ∧ isDig b = true ∧ isDig c = true ∧ isDig d = true := by
  unfold isCanonicalShape at h
  split at h
  · rename_i a b c d e f g i heq
    simp only [Bool.and_eq_true] at h
    exact ⟨a, b, c, d, e, f, g, i, heq, h.1.1.1.1.1.1.1, h.1.1.1.1.1.1.2,
      h.1.1.1.1.1.2, h.1.1.1.1.2⟩
  · cases h

lemma ne_empty_of_canonical {s : String} (h : isCanonicalShape s = true) :
    ¬ s = "" := by
  obtain ⟨a, b, c, d, e, f, g, i, heq, _⟩ := canonical_shape_data h
  intro hs
  rw [hs] at heq
  cases heq

lemma pyIntOpt_canonical {s : String} (h : isCanonicalShape s = true) :
    pyIntOpt (s.data.take 4) = some (yearOfCanonical s) := by
  obtain ⟨a, b, c, d, e, f, g, i, heq, ha, hb, hc, hd⟩ := canonical_shape_data h
  unfold pyIntOpt yearOfCanonical
  rw [heq]
  have hstrip : stripEnds isWs (List.take 4 [a, b, c, d, '-', e, f, '-', g, i]) =
      [a, b, c, d] := by
    show stripEnds isWs [a, b, c, d] = [a, b, c, d]
    refine stripEnds_noop ?_
    intro x hx
    simp only [List.mem_cons, List.not_mem_nil, or_false] at hx
    rcases hx with rfl | rfl | rfl | rfl
    · exact isWs_of_isDig ha
    · exact isWs_of_isDig hb
    · exact isWs_of_isDig hc
    · exact isWs_of_isDig hd
  rw [hstrip]
  have hane : ¬ a = '-' := by
    intro hq
    have hba := isDig_bounds ha
    rw [hq] at hba
    exact absurd hba (by decide)
  have hane2 : ¬ a = '+' := by
    intro hq
    have hba := isDig_bounds ha
    rw [hq] at hba
    exact absurd hba (by decide)
  simp only [pyIntDigits]
  rw [if_neg hane, if_neg hane2, if_pos (by simp [ha, hb, hc, hd])]
  rfl

lemma chronCheck_canonical {G : Graph} {p c : Nat} {pb cb : String}
    (hpb : birthOf G p = some pb) (hcb : birthOf G c = some cb)
    (hpc : isCanonicalShape pb = true) (hcc : isCanonicalShape cb = true) :
    chronCheck G p c =
      (if strLtB cb pb = true then some (Diag.bornBeforeParent p c)
       else if yearOfCanonical cb - yearOfCanonical pb < 12 then
         some (Diag.youngParent p c)
       else none) := by
  unfold chronCheck
  rw [hpb, hcb]
  simp only [chronBody]
  rw [if_neg (by simp [ne_empty_of_canonical hpc, ne_empty_of_canonical hcc])]
  by_cases hlt : strLtB cb pb = true
  · rw [if_pos hlt, if_pos hlt]
  · rw [if_neg hlt, if_neg hlt, pyIntOpt_canonical hpc, pyIntOpt_canonical hcc]

lemma chronCheck_born_eq {G : Graph} {a b p c : Nat}
    (h : chronCheck G a b = some (Diag.bornBeforeParent p c)) :
    a = p ∧ b = c := by
  unfold chronCheck chronBody at h
  split at h
  · split at h
    · cases h
    · split at h
      · injection h with h
        injection h with h1 h2
        exact ⟨h1, h2⟩
      · split at h
        · split at h
          · injection h with h
            cases h
          · cases h
        · cases h
  · cases h

lemma chronCheck_young_eq {G : Graph} {a b p c : Nat}
    (h : chronCheck G a b = some (Diag.youngParent p c)) :
    a = p ∧ b = c := by
  unfold chronCheck chronBody at h
  split at h
  · split at h
    · cases h
    · split at h
      · injection h with h
        cases h
      · split at h
        · split at h
          · injection h with h
            injection h with h1 h2
            exact ⟨h1, h2⟩
          · cases h
        · cases h
  · cases h

lemma mem_cycleDiags {G : Graph} {dd : Diag} (h : dd ∈ cycleDiags G) :
    dd = Diag.cycleDetected := by
  unfold cycleDiags at h
  split at h
  · simpa using h
  · cases h

lemma mem_lifespanDiags {G : Graph} {dd : Diag} (h : dd ∈ lifespanDiags G) :
    ∃ n, dd = Diag.diedBeforeBorn n := by
  unfold lifespanDiags at h
  obtain ⟨nd, _, hfe⟩ := List.mem_filterMap.mp h
  split at hfe
  · split at hfe
    · cases hfe
    · split at hfe
      · injection hfe with hfe
        exact ⟨nd.1, hfe.symm⟩
      · cases hfe
  · cases hfe

lemma eq_of_mem_keys_nodup {l : List (Nat × Nat × String)}
    (hnd : (l.map (fun e => (e.1, e.2.1))).Nodup)
    {e1 e2 : Nat × Nat × String} (h1 : e1 ∈ l) (h2 : e2 ∈ l)
    (hk1 : e1.1 = e2.1) (hk2 : e1.2.1 = e2.2.1) : e1 = e2 := by
  induction l with
  | nil => cases h1
  | cons x xs ih =>
    simp only [List.map_cons, List.nodup_cons] at hnd
    rcases List.mem_cons.mp h1 with rfl | h1'
    · rcases List.mem_cons.mp h2 with rfl | h2'
      · rfl
      · exfalso
        exact hnd.1 (List.mem_map.mpr ⟨e2, h2', by rw [← hk1, ← hk2]⟩)
    · rcases List.mem_cons.mp h2 with rfl | h2'
      · exfalso
        exact hnd.1 (List.mem_map.mpr ⟨e1, h1', by rw [hk1, hk2]⟩)
      · exact ih hnd.2 h1' h2'

lemma mem_chronDiags_iff {G : Graph} {dd : Diag} :
    dd ∈ chronDiags G ↔
      ∃ a b t, (a, b, t) ∈ G.edges ∧ t = "PARENT_OF" ∧
        chronCheck G a b = some dd := by
  unfold chronDiags
  rw [List.mem_filterMap]
  constructor
  · rintro ⟨e, hmem, hfe⟩
    obtain ⟨a, b, t⟩ := e
    split at hfe
    · rename_i ht
      exact ⟨a, b, t, hmem, by simpa using ht, hfe⟩
    · cases hfe
  · rintro ⟨a, b, t, hmem, rfl, hcc⟩
    exact ⟨(a, b, "PARENT_OF"), hmem, by simpa using hcc⟩

/-- C4: for a `PARENT_OF` edge whose endpoints both carry canonical birth
dates, `validate_graph` reports born-before-parent exactly when the child's
birth date is lexicographically smaller than the parent's, and otherwise
reports the suspiciously-young-parent warning exactly when the child's
4-digit birth year minus the parent's is less than 12. -/
theorem c4_chronology (G : Graph) (p c : Nat) (pb cb : String)
    (hedge : (p, c, "PARENT_OF") ∈ G.edges)
    (hpb : birthOf G p = some pb) (hcb : birthOf G c = some cb)
    (hpc : isCanonicalShape pb = true) (hcc : isCanonicalShape cb = true) :
    (Diag.bornBeforeParent p c ∈ validate_graph G ↔ strLtB cb pb = true) ∧
    (Diag.youngParent p c ∈ validate_graph G ↔
      (strLtB cb pb = false ∧ yearOfCanonical cb - yearOfCanonical pb < 12)) := by
  have hchar := chronCheck_canonical hpb hcb hpc hcc
  have hborn : Diag.bornBeforeParent p c ∈ validate_graph G ↔
      Diag.bornBeforeParent p c ∈ chronDiags G := by
    unfold validate_graph
    simp only [List.mem_append]
    constructor
    · rintro ((hcy | hch) | hls)
      · cases mem_cycleDiags hcy
      · exact hch
      · obtain ⟨n, hn⟩ := mem_lifespanDiags hls
        cases hn
    · intro hch
      exact Or.inl (Or.inr hch)
  have hyoung : Diag.youngParent p c ∈ validate_graph G ↔
      Diag.youngParent p c ∈ chronDiags G := by
    unfold validate_graph
    simp only [List.mem_append]
    constructor
    · rintro ((hcy | hch) | hls)
      · cases mem_cycleDiags hcy
      · exact hch
      · obtain ⟨n, hn⟩ := mem_lifespanDiags hls
        cases hn
    · intro hch
      exact Or.inl (Or.inr hch)
  constructor
  · rw [hborn, mem_chronDiags_iff]
    constructor
    · rintro ⟨a, b, t, hmem, rfl, hcc2⟩
      obtain ⟨rfl, rfl⟩ := chronCheck_born_eq hcc2
      rw [hchar] at hcc2
      split at hcc2
      · assumption
      · split at hcc2
        · injection hcc2 with hcc2
          cases hcc2
        · cases hcc2
    · intro hlt
      refine ⟨p, c, "PARENT_OF", hedge, rfl, ?_⟩
      rw [hchar, if_pos hlt]
  · rw [hyoung, mem_chronDiags_iff]
    constructor
    · rintro ⟨a, b, t, hmem, rfl, hcc2⟩
      obtain ⟨rfl, rfl⟩ := chronCheck_young_eq hcc2
      rw [hchar] at hcc2
      split at hcc2
      · injection hcc2 with hcc2
        cases hcc2
      · split at hcc2
        · rename_i hlt hyr
          refine ⟨by simpa using hlt, hyr⟩
        · cases hcc2
    · rintro ⟨hlt, hyr⟩
      refine ⟨p, c, "PARENT_OF", hedge, rfl, ?_⟩
      rw [hchar, if_neg (by simp [hlt]), if_pos hyr]

/-- Parent 1 (born 1950) with children born 1949, 1955 and 1970: the three
example situations of the specification. -/
def GV : Graph :=
  ⟨[(1, { birth_date := some "1950-01-01" }),
    (2, { birth_date := some "1949-01-01" }),
    (3, { birth_date := some "1955-01-01" }),
    (4, { birth_date := some "1970-01-01" })],
   [(1, 2, "PARENT_OF"), (1, 3, "PARENT_OF"), (1, 4, "PARENT_OF")]⟩

/-- Witness for C4: a 1949 child of a 1950 parent triggers born-before, a
5-year gap triggers young-parent, and a 20-year gap triggers neither. -/
theorem c4_chronology_witness :
    Diag.bornBeforeParent 1 2 ∈ validate_graph GV ∧
    Diag.youngParent 1 3 ∈ validate_graph GV ∧
    Diag.bornBeforeParent 1 4 ∉ validate_graph GV ∧
    Diag.youngParent 1 4 ∉ validate_graph GV := by
  refine ⟨?_, ?_, ?_, ?_⟩
  · exact ((c4_chronology GV 1 2 "1950-01-01" "1949-01-01" (by decide)
      (by decide) (by decide) (by decide) (by decide)).1).mpr (by decide)
  · exact ((c4_chronology GV 1 3 "1950-01-01" "1955-01-01" (by decide)
      (by decide) (by decide) (by decide) (by decide)).2).mpr
      ⟨by decide, by decide⟩
  · intro hmem
    exact absurd (((c4_chronology GV 1 4 "1950-01-01" "1970-01-01" (by decide)
      (by decide) (by decide) (by decide) (by decide)).1).mp hmem) (by decide)
  · intro hmem
    exact absurd ((((c4_chronology GV 1 4 "1950-01-01" "1970-01-01" (by decide)
      (by decide) (by decide) (by decide) (by decide)).2).mp hmem).2)
      (by decide)

/-! ## Union layout graph (src/graph.py, lines 125-209) -/

/-- Digit-accumulating core of the decimal representation (the fuel argument
only bounds the recursion depth; `n + 1` steps always suffice). -/
def decDigitsCore : Nat → Nat → List Char → List Char
  | 0, _, acc => acc
  | fuel + 1, n, acc =>
    if n < 10 then Nat.digitChar n :: acc
    else decDigitsCore fuel (n / 10) (Nat.digitChar (n % 10) :: acc)

/-- Decimal digit string of a natural number. -/
def decDigits (n : Nat) : List Char := decDigitsCore (n + 1) n []

/-- Python `str` on a nonnegative int, as used for the `key=str` sorting and
the `f"FAM_{a}_{b}"` identifiers. -/
def decimalRepr (n : Nat) : String := String.mk (decDigits n)

/-- Python string `<=` (used through `sorted`, which swaps two elements
exactly when the second key is smaller). -/
def strLeB (a b : String) : Bool := !(strLtB b a)

/-- `tuple(sorted([u, v], key=str))` (lines 151, 193). -/
def sortPairStr (u v : Nat) : Nat × Nat :=
  if strLeB (decimalRepr u) (decimalRepr v) then (u, v) else (v, u)

/-- `f"FAM_{a}_{b}"` (lines 157, keyed by a sorted spouse pair). -/
def famId (pr : Nat × Nat) : String :=
  "FAM_" ++ decimalRepr pr.1 ++ "_" ++ decimalRepr pr.2

/-- `"_".join(strs)`. -/
def joinUnderscore : List String → String
  | [] => ""
  | [s] => s
  | s :: rest => s ++ "_" ++ joinUnderscore rest

def insertByStr (x : Nat) : List Nat → List Nat
  | [] => [x]
  | y :: ys =>
    if strLeB (decimalRepr x) (decimalRepr y) then x :: y :: ys
    else y :: insertByStr x ys

/-- Python `sorted(parents, key=str)` as an insertion sort; it agrees with
Python's stable sort because deduplicated parents have distinct keys. -/
def sortByStr : List Nat → List Nat
  | [] => []
  | x :: xs => insertByStr x (sortByStr xs)

/-- `f"FAM_{'_'.join(map(str, sorted(parents, key=str)))}"` (line 200). -/
def synthFamId (parents : List Nat) : String :=
  "FAM_" ++ joinUnderscore ((sortByStr parents).map decimalRepr)

/-- First-occurrence deduplication, modelling both the Python `set` of
spouse pairs (its iteration order is irrelevant to the claims, only its
membership) and `dict.fromkeys` / dict-key insertion order. -/
def firstDedup {α : Type} [DecidableEq α] (l : List α) : List α :=
  firstDedupGo l []
where firstDedupGo : List α → List α → List α
  | [], _ => []
  | x :: xs, seen =>
    if x ∈ seen then firstDedupGo xs seen else x :: firstDedupGo xs (x :: seen)

/-- The deduplicated sorted spouse pairs (lines 148-152). -/
def spousePairs (G : Graph) : List (Nat × Nat) :=
  firstDedup (G.edges.filterMap (fun e =>
    if e.2.2 = "SPOUSE_OF" then some (sortPairStr e.1 e.2.1) else none))

/-- Node identifiers of the union layout graph: original person ids (Python
ints) or synthetic family-node id strings. -/
inductive UNode where
  | person (n : Nat) : UNode
  | family (fid : String) : UNode
deriving DecidableEq

/-- Node attributes of the union layout graph: copied person attributes
tagged `node_type="person"`, or a family node with its `spouses` tuple. -/
inductive UNodeData where
  | person (d : NodeData) : UNodeData
  | family (spouses : List Nat) : UNodeData
deriving DecidableEq

structure UGraph where
  nodes : List (UNode × UNodeData)
  edges : List (UNode × UNode × String)
deriving DecidableEq

def UGraph.hasNodeU (H : UGraph) (x : UNode) : Bool :=
  H.nodes.any (fun p => p.1 = x)

/-- `itertools.combinations(l, 2)`, in generation order. -/
def combinations2 {α : Type} : List α → List (α × α)
  | [] => []
  | x :: xs => xs.map (fun y => (x, y)) ++ combinations2 xs

/-- The first spouse pair found among the deduplicated parents
(lines 190-196): only searched when at least two parents exist. -/
def famPairChoice (spairs : List (Nat × Nat)) (parents : List Nat) :
    Option (Nat × Nat) :=
  if 2 ≤ parents.length then
    (combinations2 parents).findSome? (fun pq =>
      if sortPairStr pq.1 pq.2 ∈ spairs then some (sortPairStr pq.1 pq.2)
      else none)
  else none

/-- The family-node id a child ends up attached to. -/
def famChoice (spairs : List (Nat × Nat)) (parents : List Nat) : String :=
  match famPairChoice spairs parents with
  | some pr => famId pr
  | none => synthFamId parents

/-- The spouse-pair section (lines 154-163): one family node per pair, with
both spouses wired to it. -/
def buildSpouseSection : List (Nat × Nat) → UGraph → UGraph
  | [], H => H
  | pr :: prs, H =>
    buildSpouseSection prs
      { nodes := H.nodes ++
          [(UNode.family (famId pr), UNodeData.family [pr.1, pr.2])],
        edges := H.edges ++
          [(UNode.person pr.1, UNode.family (famId pr), "spouse_to_family"),
           (UNode.person pr.2, UNode.family (famId pr), "spouse_to_family")] }

/-- One iteration of the per-child loop (lines 184-207): attach the child to
the matched spouse-pair family node, or to a synthesized family node (created
with its `spouse_to_family` wiring only if not already present). -/
def childStep (spairs : List (Nat × Nat)) (H : UGraph)
    (entry : Nat × List Nat) : UGraph :=
  match famPairChoice spairs entry.2 with
  | some pr =>
    { H with edges := H.edges ++
        [(UNode.family (famId pr), UNode.person entry.1, "family_to_child")] }
  | none =>
    if H.hasNodeU (UNode.family (synthFamId entry.2)) then
      { H with edges := H.edges ++
          [(UNode.family (synthFamId entry.2), UNode.person entry.1,
            "family_to_child")] }
    else
      { nodes := H.nodes ++
          [(UNode.family (synthFamId entry.2), UNodeData.family entry.2)],
        edges := (H.edges ++ entry.2.map (fun p =>
            (UNode.person p, UNode.family (synthFamId entry.2),
              "spouse_to_family"))) ++
          [(UNode.family (synthFamId entry.2), UNode.person entry.1,
            "family_to_child")] }

def childLoop (spairs : List (Nat × Nat)) :
    List (Nat × List Nat) → UGraph → UGraph
  | [], H => H
  | entry :: rest, H => childLoop spairs rest (childStep spairs H entry)

/-- The deduplicated parent list of one child, in first-seen edge order
(lines 179-186). -/
def parentsOfChild (G : Graph) (c : Nat) : List Nat :=
  firstDedup (((parentOfEdges G).filter (fun pc => pc.2 = c)).map
    (fun pc => pc.1))

/-- The children, keyed in first-seen edge order (lines 179-181). -/
def childKeys (G : Graph) : List Nat :=
  firstDedup ((parentOfEdges G).map (fun pc => pc.2))

def parentsByChild (G : Graph) : List (Nat × List Nat) :=
  (childKeys G).map (fun c => (c, parentsOfChild G c))

/-- Embedding of `build_union_layout_graph` (src/graph.py, lines 125-209). -/
def build_union_layout_graph (G : Graph) : UGraph :=
  childLoop (spousePairs G) (parentsByChild G)
    (buildSpouseSection (spousePairs G)
      ⟨G.nodes.map (fun nd => (UNode.person nd.1, UNodeData.person nd.2)), []⟩)

/-! ## Decimal representation lemmas -/

lemma numOf_from (l : List Char) :
    ∀ a : Nat, l.foldl (fun x c => x * 10 + dval c) a =
      a * 10 ^ l.length + numOf l := by
  induction l with
  | nil => intro a; simp [numOf]
  | cons c cs ih =>
    intro a
    have h1 : numOf (c :: cs) = dval c * 10 ^ cs.length + numOf cs := by
      show List.foldl _ (0 * 10 + dval c) cs = _
      rw [ih]
      ring_nf
    simp only [List.foldl_cons, List.length_cons]
    rw [ih, h1]
    ring

lemma numOf_cons (c : Char) (l : List Char) :
    numOf (c :: l) = dval c * 10 ^ l.length + numOf l := by
  show List.foldl _ (0 * 10 + dval c) l = _
  rw [numOf_from]
  ring_nf

lemma digitChar_lt_facts {n : Nat} (h : n < 10) :
    isDig (Nat.digitChar n) = true ∧ dval (Nat.digitChar n) = n := by
  rw [show n = n % 10 from (Nat.mod_eq_of_lt h).symm]
  exact ⟨isDig_digitChar_mod n, dval_digitChar_mod n⟩

lemma decDigitsCore_value : ∀ (fuel n : Nat) (acc : List Char),
    n < 10 ^ fuel →
    numOf (decDigitsCore fuel n acc) = n * 10 ^ acc.length + numOf acc := by
  intro fuel
  induction fuel with
  | zero =>
    intro n acc hn
    interval_cases n
    simp [decDigitsCore]
  | succ f ih =>
    intro n acc hn
    rw [decDigitsCore]
    by_cases h10 : n < 10
    · rw [if_pos h10, numOf_cons, (digitChar_lt_facts h10).2]
    · rw [if_neg h10]
      have hdiv : n / 10 < 10 ^ f := by
        rw [Nat.div_lt_iff_lt_mul (by norm_num)]
        calc n < 10 ^ (f + 1) := hn
        _ = 10 ^ f * 10 := by ring
      rw [ih (n / 10) _ hdiv, numOf_cons,
        (digitChar_lt_facts (Nat.mod_lt _ (by norm_num))).2]
      simp only [List.length_cons]
      have hmod := Nat.div_add_mod n 10
      calc n / 10 * 10 ^ (acc.length + 1) +
            (n % 10 * 10 ^ acc.length + numOf acc)
          = (10 * (n / 10) + n % 10) * 10 ^ acc.length + numOf acc := by ring
        _ = n * 10 ^ acc.length + numOf acc := by rw [hmod]

lemma lt_ten_pow_succ (n : Nat) : n < 10 ^ (n + 1) :=
  lt_of_lt_of_le (Nat.lt_two_pow n)
    (le_trans (Nat.pow_le_pow_left (by norm_num) n)
      (Nat.pow_le_pow_right (by norm_num) (Nat.le_succ n)))

lemma numOf_decDigits (n : Nat) : numOf (decDigits n) = n := by
  unfold decDigits
  rw [decDigitsCore_value (n + 1) n [] (lt_ten_pow_succ n)]
  simp [numOf]

lemma decDigitsCore_all_digits : ∀ (fuel n : Nat) (acc : List Char),
    (∀ c ∈ acc, isDig c = true) →
    ∀ c ∈ decDigitsCore fuel n acc, isDig c = true := by
  intro fuel
  induction fuel with
  | zero => intro n acc hacc; exact hacc
  | succ f ih =>
    intro n acc hacc c hc
    rw [decDigitsCore] at hc
    by_cases h10 : n < 10
    · rw [if_pos h10] at hc
      rcases List.mem_cons.mp hc with rfl | hm
      · exact (digitChar_lt_facts h10).1
      · exact hacc c hm
    · rw [if_neg h10] at hc
      refine ih (n / 10) _ ?_ c hc
      intro x hx
      rcases List.mem_cons.mp hx with rfl | hm
      · exact (digitChar_lt_facts (Nat.mod_lt _ (by norm_num))).1
      · exact hacc x hm

lemma decDigits_all_digits (n : Nat) : ∀ c ∈ decDigits n, isDig c = true :=
  decDigitsCore_all_digits (n + 1) n [] (fun c hc => absurd hc (List.not_mem_nil c))

lemma decDigits_no_underscore (n : Nat) : '_' ∉ decDigits n := by
  intro h
  exact absurd (isDig_bounds (decDigits_all_digits n _ h)) (by decide)

lemma decimalRepr_inj {m n : Nat} (h : decimalRepr m = decimalRepr n) :
    m = n := by
  have hd : decDigits m = decDigits n := congrArg String.data h
  have := congrArg numOf hd
  rwa [numOf_decDigits, numOf_decDigits] at this

lemma append_underscore_inj : ∀ {l1 l3 : List Char} {l2 l4 : List Char},
    '_' ∉ l1 → '_' ∉ l3 → l1 ++ '_' :: l2 = l3 ++ '_' :: l4 →
    l1 = l3 ∧ l2 = l4 := by
  intro l1
  induction l1 with
  | nil =>
    intro l3 l2 l4 _ h3 h
    cases l3 with
    | nil => simpa using h
    | cons y ys =>
      simp only [List.nil_append, List.cons_append, List.cons.injEq] at h
      exact absurd (h.1 ▸ List.mem_cons_self _ _) h3
  | cons x xs ih =>
    intro l3 l2 l4 h1 h3 h
    cases l3 with
    | nil =>
      simp only [List.cons_append, List.nil_append, List.cons.injEq] at h
      exact absurd (h.1 ▸ List.mem_cons_self _ _) h1
    | cons y ys =>
      simp only [List.cons_append, List.cons.injEq] at h
      obtain ⟨rfl, h2⟩ := h
      have hr := ih (fun hm => h1 (List.mem_cons_of_mem _ hm))
        (fun hm => h3 (List.mem_cons_of_mem _ hm)) h2
      exact ⟨by rw [hr.1], hr.2⟩

lemma sortByStr_pair (p q : Nat) :
    sortByStr [p, q] = [(sortPairStr p q).1, (sortPairStr p q).2] := by
  show insertByStr p [q] = _
  show (if strLeB (decimalRepr p) (decimalRepr q) = true then p :: [q]
    else q :: insertByStr p []) = _
  unfold sortPairStr
  by_cases h : strLeB (decimalRepr p) (decimalRepr q) = true
  · rw [if_pos h, if_pos h]
  · rw [if_neg h, if_neg h]
    rfl

lemma famId_eq_synth_two {a b p q : Nat}
    (h : famId (a, b) = synthFamId [p, q]) : (a, b) = sortPairStr p q := by
  unfold famId synthFamId at h
  rw [sortByStr_pair, List.map_cons, List.map_cons, List.map_nil] at h
  have hjoin : joinUnderscore [decimalRepr (sortPairStr p q).1,
      decimalRepr (sortPairStr p q).2] =
      decimalRepr (sortPairStr p q).1 ++ "_" ++
        decimalRepr (sortPairStr p q).2 := by
    simp [joinUnderscore]
  rw [hjoin] at h
  have hdata := congrArg String.data h
  simp only [String.data_append, List.append_assoc, List.cons_append,
    List.nil_append, List.cons.injEq, true_and,
    show ("FAM_" : String).data = ['F', 'A', 'M', '_'] from rfl,
    show ("_" : String).data = ['_'] from rfl] at hdata
  have hsplit := append_underscore_inj (decDigits_no_underscore a)
    (decDigits_no_underscore (sortPairStr p q).1) hdata
  have ha : a = (sortPairStr p q).1 :=
    decimalRepr_inj (congrArg String.mk hsplit.1)
  have hb : b = (sortPairStr p q).2 :=
    decimalRepr_inj (congrArg String.mk hsplit.2)
  rw [ha, hb]

/-! ## Structure of the union layout graph -/

lemma mem_firstDedupGo {α : Type} [DecidableEq α] :
    ∀ (l seen : List α) (x : α),
      x ∈ firstDedup.firstDedupGo l seen ↔ x ∈ l ∧ x ∉ seen := by
  intro l
  induction l with
  | nil => intro seen x; simp [firstDedup.firstDedupGo]
  | cons y ys ih =>
    intro seen x
    rw [firstDedup.firstDedupGo]
    by_cases hy : y ∈ seen
    · rw [if_pos hy, ih]
      constructor
      · rintro ⟨h1, h2⟩
        exact ⟨List.mem_cons_of_mem _ h1, h2⟩
      · rintro ⟨h1, h2⟩
        rcases List.mem_cons.mp h1 with rfl | h1'
        · exact absurd hy h2
        · exact ⟨h1', h2⟩
    · rw [if_neg hy]
      constructor
      · intro hx
        rcases List.mem_cons.mp hx with rfl | hx'
        · exact ⟨List.mem_cons_self _ _, hy⟩
        · obtain ⟨h1, h2⟩ := (ih _ x).mp hx'
          refine ⟨List.mem_cons_of_mem _ h1, fun hs => h2 ?_⟩
          exact List.mem_cons_of_mem _ hs
      · rintro ⟨h1, h2⟩
        rcases List.mem_cons.mp h1 with rfl | h1'
        · exact List.mem_cons_self _ _
        · by_cases hxy : x = y
          · subst hxy
            exact List.mem_cons_self _ _
          · refine List.mem_cons_of_mem _ ((ih _ x).mpr ⟨h1', ?_⟩)
            intro hs
            rcases List.mem_cons.mp hs with h | h
            · exact hxy h
            · exact h2 h

lemma mem_firstDedup {α : Type} [DecidableEq α] {l : List α} {x : α} :
    x ∈ firstDedup l ↔ x ∈ l := by
  unfold firstDedup
  rw [mem_firstDedupGo]
  simp

lemma firstDedupGo_nodup {α : Type} [DecidableEq α] :
    ∀ (l seen : List α), (firstDedup.firstDedupGo l seen).Nodup := by
  intro l
  induction l with
  | nil => intro seen; exact List.nodup_nil
  | cons y ys ih =>
    intro seen
    rw [firstDedup.firstDedupGo]
    by_cases hy : y ∈ seen
    · rw [if_pos hy]
      exact ih seen
    · rw [if_neg hy]
      refine List.nodup_cons.mpr ⟨?_, ih _⟩
      intro hmem
      exact ((mem_firstDedupGo ys (y :: seen) y).mp hmem).2
        (List.mem_cons_self _ _)

lemma firstDedup_nodup {α : Type} [DecidableEq α] (l : List α) :
    (firstDedup l).Nodup :=
  firstDedupGo_nodup l []

lemma buildSpouseSection_mono {pairs : List (Nat × Nat)} :
    ∀ {H : UGraph} {e}, e ∈ H.edges →
      e ∈ (buildSpouseSection pairs H).edges := by
  induction pairs with
  | nil => intro H e he; exact he
  | cons pr prs ih =>
    intro H e he
    exact ih (List.mem_append.mpr (Or.inl he))

lemma buildSpouseSection_edge_types {pairs : List (Nat × Nat)} :
    ∀ {H : UGraph} {e}, e ∈ (buildSpouseSection pairs H).edges →
      e ∈ H.edges ∨ e.2.2 = "spouse_to_family" := by
  induction pairs with
  | nil => intro H e he; exact Or.inl he
  | cons pr prs ih =>
    intro H e he
    rcases ih he with h | h
    · rcases List.mem_append.mp h with h' | h'
      · exact Or.inl h'
      · right
        simp only [List.mem_cons, List.not_mem_nil, or_false] at h'
        rcases h' with rfl | rfl <;> rfl
    · exact Or.inr h

lemma buildSpouseSection_spouse_edges {pairs : List (Nat × Nat)}
    {pr : Nat × Nat} (hpr : pr ∈ pairs) :
    ∀ (H : UGraph),
      (UNode.person pr.1, UNode.family (famId pr), "spouse_to_family") ∈
        (buildSpouseSection pairs H).edges ∧
      (UNode.person pr.2, UNode.family (famId pr), "spouse_to_family") ∈
        (buildSpouseSection pairs H).edges := by
  induction pairs with
  | nil => cases hpr
  | cons q qs ih =>
    intro H
    rcases List.mem_cons.mp hpr with rfl | h
    · rw [buildSpouseSection]
      constructor
      · exact buildSpouseSection_mono
          (List.mem_append.mpr (Or.inr (List.mem_cons_self _ _)))
      · exact buildSpouseSection_mono (List.mem_append.mpr (Or.inr
          (List.mem_cons_of_mem _ (List.mem_cons_self _ _))))
    · rw [buildSpouseSection]
      exact ih h _

lemma ftc_eq_inv {x y : UNode} {c d : Nat} {t : String}
    (h : (x, UNode.person c, "family_to_child") = (y, UNode.person d, t)) :
    c = d ∧ x = y := by
  injection h with h1 h2
  injection h2 with h2 _
  injection h2 with h2
  exact ⟨h2, h1⟩

lemma childStep_ftc_mem {spairs : List (Nat × Nat)} {H : UGraph}
    {entry : Nat × List Nat} {x : UNode} {c : Nat} :
    (x, UNode.person c, "family_to_child") ∈ (childStep spairs H entry).edges ↔
      (x, UNode.person c, "family_to_child") ∈ H.edges ∨
        (c = entry.1 ∧ x = UNode.family (famChoice spairs entry.2)) := by
  unfold childStep famChoice
  cases hfp : famPairChoice spairs entry.2 with
  | some pr =>
    constructor
    · intro h
      rcases List.mem_append.mp h with h | h
      · exact Or.inl h
      · simp only [List.mem_cons, List.not_mem_nil, or_false] at h
        exact Or.inr (ftc_eq_inv h)
    · rintro (h | ⟨rfl, rfl⟩)
      · exact List.mem_append.mpr (Or.inl h)
      · exact List.mem_append.mpr (Or.inr (List.mem_cons_self _ _))
  | none =>
    by_cases hn : H.hasNodeU (UNode.family (synthFamId entry.2)) = true
    · rw [if_pos hn]
      constructor
      · intro h
        rcases List.mem_append.mp h with h | h
        · exact Or.inl h
        · simp only [List.mem_cons, List.not_mem_nil, or_false] at h
          exact Or.inr (ftc_eq_inv h)
      · rintro (h | ⟨rfl, rfl⟩)
        · exact List.mem_append.mpr (Or.inl h)
        · exact List.mem_append.mpr (Or.inr (List.mem_cons_self _ _))
    · rw [if_neg hn]
      constructor
      · intro h
        rcases List.mem_append.mp h with h | h
        · rcases List.mem_append.mp h with h | h
          · exact Or.inl h
          · exfalso
            obtain ⟨_, _, hpe⟩ := List.mem_map.mp h
            cases hpe
        · simp only [List.mem_cons, List.not_mem_nil, or_false] at h
          exact Or.inr (ftc_eq_inv h)
      · rintro (h | ⟨rfl, rfl⟩)
        · exact List.mem_append.mpr (Or.inl (List.mem_append.mpr (Or.inl h)))
        · exact List.mem_append.mpr (Or.inr (List.mem_cons_self _ _))

lemma childLoop_mono {spairs : List (Nat × Nat)} :
    ∀ {entries : List (Nat × List Nat)} {H : UGraph} {e},
      e ∈ H.edges → e ∈ (childLoop spairs entries H).edges := by
  intro entries
  induction entries with
  | nil => intro H e he; exact he
  | cons entry rest ih =>
    intro H e he
    rw [childLoop]
    refine ih ?_
    unfold childStep
    cases famPairChoice spairs entry.2 with
    | some pr => exact List.mem_append.mpr (Or.inl he)
    | none =>
      by_cases hn : H.hasNodeU (UNode.family (synthFamId entry.2)) = true
      · rw [if_pos hn]
        exact List.mem_append.mpr (Or.inl he)
      · rw [if_neg hn]
        exact List.mem_append.mpr (Or.inl (List.mem_append.mpr (Or.inl he)))

lemma childLoop_ftc_mem {spairs : List (Nat × Nat)} :
    ∀ {entries : List (Nat × List Nat)} {H : UGraph} {x : UNode} {c : Nat},
      ((x, UNode.person c, "family_to_child") ∈
          (childLoop spairs entries H).edges ↔
        (x, UNode.person c, "family_to_child") ∈ H.edges ∨
          ∃ ps, (c, ps) ∈ entries ∧
            x = UNode.family (famChoice spairs ps)) := by
  intro entries
  induction entries with
  | nil => intro H x c; simp [childLoop]
  | cons entry rest ih =>
    intro H x c
    rw [childLoop, ih, childStep_ftc_mem]
    constructor
    · rintro ((h | ⟨rfl, rfl⟩) | ⟨ps, hps, hx⟩)
      · exact Or.inl h
      · exact Or.inr ⟨entry.2, List.mem_cons_self _ _, rfl⟩
      · exact Or.inr ⟨ps, List.mem_cons_of_mem _ hps, hx⟩
    · rintro (h | ⟨ps, hps, hx⟩)
      · exact Or.inl (Or.inl h)
      · rcases List.mem_cons.mp hps with heq | hmem
        · exact Or.inl (Or.inr ⟨by rw [← heq], by rw [← heq]; exact hx⟩)
        · exact Or.inr ⟨ps, hmem, hx⟩

lemma famPairChoice_two (spairs : List (Nat × Nat)) (p q : Nat) :
    famPairChoice spairs [p, q] =
      if sortPairStr p q ∈ spairs then some (sortPairStr p q) else none := by
  unfold famPairChoice
  rw [if_pos (by simp)]
  show List.findSome? _ [(p, q)] = _
  rw [List.findSome?_cons]
  by_cases hm : sortPairStr p q ∈ spairs
  · rw [if_pos hm]
  · rw [if_neg hm]
    rfl

lemma mem_parentsByChild {G : Graph} {c : Nat} {ps : List Nat} :
    (c, ps) ∈ parentsByChild G ↔
      c ∈ childKeys G ∧ ps = parentsOfChild G c := by
  unfold parentsByChild
  rw [List.mem_map]
  constructor
  · rintro ⟨c', hc', heq⟩
    have h1 : c' = c := congrArg Prod.fst heq
    have h2 : parentsOfChild G c' = ps := congrArg Prod.snd heq
    subst h1
    exact ⟨hc', h2.symm⟩
  · rintro ⟨hc, rfl⟩
    exact ⟨c, hc, rfl⟩

lemma child_mem_childKeys {G : Graph} {c : Nat}
    (h : parentsOfChild G c ≠ []) : c ∈ childKeys G := by
  unfold parentsOfChild at h
  unfold childKeys
  rw [mem_firstDedup]
  cases hf : ((parentOfEdges G).filter (fun pc => pc.2 = c)) with
  | nil => rw [hf] at h; simp [firstDedup, firstDedup.firstDedupGo] at h
  | cons pc rest =>
    have hmem : pc ∈ (parentOfEdges G).filter (fun pc => pc.2 = c) := by
      rw [hf]
      exact List.mem_cons_self _ _
    have h2 := List.mem_filter.mp hmem
    rw [List.mem_map]
    exact ⟨pc, h2.1, by simpa using h2.2⟩

/-- C5: a child whose two deduplicated parents are recorded as spouses is
attached by a single `family_to_child` edge to exactly the spouse pair's
family node, the same node both parents are wired to with
`spouse_to_family` edges; a child whose two parents are not recorded as
spouses is attached to the family node keyed by the sorted parent list,
which differs from every spouse-pair family node. -/
theorem c5_union_family_nodes (G : Graph) (c p q : Nat)
    (hps : parentsOfChild G c = [p, q]) :
    (sortPairStr p q ∈ spousePairs G →
      (UNode.family (famId (sortPairStr p q)), UNode.person c,
        "family_to_child") ∈ (build_union_layout_graph G).edges ∧
      (∀ x, (x, UNode.person c, "family_to_child") ∈
          (build_union_layout_graph G).edges →
        x = UNode.family (famId (sortPairStr p q))) ∧
      (UNode.person p, UNode.family (famId (sortPairStr p q)),
        "spouse_to_family") ∈ (build_union_layout_graph G).edges ∧
      (UNode.person q, UNode.family (famId (sortPairStr p q)),
        "spouse_to_family") ∈ (build_union_layout_graph G).edges) ∧
    (sortPairStr p q ∉ spousePairs G →
      (UNode.family (synthFamId [p, q]), UNode.person c,
        "family_to_child") ∈ (build_union_layout_graph G).edges ∧
      (∀ x, (x, UNode.person c, "family_to_child") ∈
          (build_union_layout_graph G).edges →
        x = UNode.family (synthFamId [p, q])) ∧
      ∀ pr ∈ spousePairs G, famId pr ≠ synthFamId [p, q]) := by
  have hentry : (c, [p, q]) ∈ parentsByChild G :=
    mem_parentsByChild.mpr ⟨child_mem_childKeys (by rw [hps]; simp), hps.symm⟩
  have hfam : ∀ ps, (c, ps) ∈ parentsByChild G → ps = [p, q] := by
    intro ps hm
    rw [(mem_parentsByChild.mp hm).2, hps]
  have hTC : ∀ x, ((x, UNode.person c, "family_to_child") ∈
      (build_union_layout_graph G).edges ↔
      x = UNode.family (famChoice (spousePairs G) [p, q])) := by
    intro x
    unfold build_union_layout_graph
    rw [childLoop_ftc_mem]
    constructor
    · rintro (h | ⟨ps, hpsm, hx⟩)
      · rcases buildSpouseSection_edge_types h with h' | h'
        · exact absurd h' (List.not_mem_nil _)
        · exact absurd
            (show ("family_to_child" : String) = "spouse_to_family" from h')
            (by decide)
      · rw [hfam ps hpsm] at hx
        exact hx
    · intro hx
      exact Or.inr ⟨[p, q], hentry, hx⟩
  have hcase : sortPairStr p q = (p, q) ∨ sortPairStr p q = (q, p) := by
    unfold sortPairStr
    by_cases h : strLeB (decimalRepr p) (decimalRepr q) = true
    · rw [if_pos h]
      exact Or.inl rfl
    · rw [if_neg h]
      exact Or.inr rfl
  constructor
  · intro hmem
    have hchoice : famChoice (spousePairs G) [p, q] =
        famId (sortPairStr p q) := by
      unfold famChoice
      rw [famPairChoice_two, if_pos hmem]
    refine ⟨(hTC _).mpr (by rw [hchoice]), ?_, ?_, ?_⟩
    · intro x hx
      rw [(hTC x).mp hx, hchoice]
    · unfold build_union_layout_graph
      refine childLoop_mono ?_
      rcases hcase with hpq | hpq
      · rw [hpq]
        exact (buildSpouseSection_spouse_edges (hpq ▸ hmem) _).1
      · rw [hpq]
        exact (buildSpouseSection_spouse_edges (hpq ▸ hmem) _).2
    · unfold build_union_layout_graph
      refine childLoop_mono ?_
      rcases hcase with hpq | hpq
      · rw [hpq]
        exact (buildSpouseSection_spouse_edges (hpq ▸ hmem) _).2
      · rw [hpq]
        exact (buildSpouseSection_spouse_edges (hpq ▸ hmem) _).1
  · intro hnot
    have hchoice : famChoice (spousePairs G) [p, q] = synthFamId [p, q] := by
      unfold famChoice
      rw [famPairChoice_two, if_neg hnot]
    refine ⟨(hTC _).mpr (by rw [hchoice]), ?_, ?_⟩
    · intro x hx
      rw [(hTC x).mp hx, hchoice]
    · intro pr hpr heq
      have hh : (pr.1, pr.2) = sortPairStr p q :=
        famId_eq_synth_two (show famId (pr.1, pr.2) = synthFamId [p, q] from heq)
      exact hnot (by rw [← hh]; exact hpr)

/-- Spouses 1-2 with child 3, and non-spouse parents 4 and 5 with child 6. -/
def GU : Graph :=
  ⟨[(1, {}), (2, {}), (3, {}), (4, {}), (5, {}), (6, {})],
   [(1, 2, "SPOUSE_OF"), (1, 3, "PARENT_OF"), (2, 3, "PARENT_OF"),
    (4, 6, "PARENT_OF"), (5, 6, "PARENT_OF")]⟩

/-- Witness for C5 on a concrete graph with both kinds of children. -/
theorem c5_union_family_nodes_witness :
    (UNode.family (famId (sortPairStr 1 2)), UNode.person 3,
      "family_to_child") ∈ (build_union_layout_graph GU).edges ∧
    (UNode.family (synthFamId [4, 5]), UNode.person 6,
      "family_to_child") ∈ (build_union_layout_graph GU).edges :=
  ⟨((c5_union_family_nodes GU 3 1 2 (by decide)).1 (by decide)).1,
   ((c5_union_family_nodes GU 6 4 5 (by decide)).2 (by decide)).1⟩

end Msgene
